import Mathlib

/-!
The package `kog` of iofog-operator: the reconciliation pipeline and its bundle builders.

A shallow embedding of `pkg/controller/kog/controller.go` and
`pkg/controller/kog/microservices.go`.

Conventions of the embedding.

* A Go `error` is a value of `GoError`; a nil error is `none`.
* A Go function with results `(T, error)` returns a pair `T × Option GoError`.
* A Go `string` is a sequence of bytes.  Where the code only compares, copies or
  concatenates strings they are Lean `String`s; the credential password, whose
  bytes the base64 decoder inspects one at a time, and the connector names,
  which are searched and sliced by byte offset, are `List Byte`s.
* A slice index that Go would reject with a run-time panic makes the embedded
  function return `none`.
-/

namespace Kog

/-! ## Go values -/

/-- A Go `byte`. -/
abbrev Byte := Fin 256

/-- The conversion `byte(n)` of an unsigned integer: truncation to eight bits. -/
def byte (n : Nat) : Byte := ⟨n % 256, Nat.mod_lt n (by decide)⟩

/-- The bytes of a string literal whose characters are all ASCII. -/
def ascii (s : String) : List Byte := s.toList.map fun c => byte c.toNat

/-- The error values the package can see: `base64.CorruptInputError` (an
offset into the input), the `errors.New` string error, and an API status
error carrying its reason. -/
inductive GoError where
  | CorruptInputError (offset : Nat)
  | errorString (s : String)
  | StatusError (reason : String) (message : String)
  deriving DecidableEq, Repr

/-- The function `errors.New`. -/
def errors.New (text : String) : GoError := GoError.errorString text

/-- The predicate `errors.IsNotFound` of `k8s.io/apimachinery/pkg/api/errors`:
the reason of the error is `StatusReasonNotFound`. -/
def IsNotFound : GoError → Bool
  | GoError.StatusError reason _ => reason == "NotFound"
  | _ => false

/-! ## `encoding/base64`, the standard padded encoding

`decode` calls `b64.StdEncoding.DecodeString`.  `StdEncoding` is the RFC 4648
alphabet with `=` padding, not strict.  The decoder below follows
`(*Encoding).Decode` and `(*Encoding).decodeQuantum`; the word-at-a-time fast
paths of `Decode` write the same bytes as `decodeQuantum` does on eight (or
four) alphabet characters and fall back to it otherwise, so only the general
loop is embedded. -/

/-- The alphabet `encodeStd`. -/
def encodeStd : List Byte :=
  ascii "ABCDEFGHIJKLMNOPQRSTUVWXYZabcdefghijklmnopqrstuvwxyz0123456789+/"

/-- The padding character `StdPadding`, an equals sign. -/
def StdPadding : Byte := 61

/-- The line feed character. -/
def LF : Byte := 10

/-- The carriage return character. -/
def CR : Byte := 13

/-- The table `enc.decodeMap`: the index of an alphabet character, `0xFF` for
every other byte. -/
def decodeMap (c : Byte) : Nat :=
  if encodeStd.indexOf c < 64 then encodeStd.indexOf c else 0xFF

/-- The results `(nsi, n, err)` of `decodeQuantum`, with the `n` bytes it wrote
to `dst` and the unread input `src[nsi:]`. -/
structure Quantum where
  rest : List Byte
  nsi : Nat
  out : List Byte
  err : Option GoError
  deriving DecidableEq, Repr

/-- The loops `for si < len(src) && (src[si] == '\n' || src[si] == '\r')`. -/
def skipNewlines : List Byte → Nat → List Byte × Nat
  | [], si => ([], si)
  | c :: src, si => if c = LF ∨ c = CR then skipNewlines src (si + 1) else (c :: src, si)

/-- The tail of `decodeQuantum`: four 6-bit values become three bytes, of
which the first `dlen - 1` are written. -/
def decodeQuantum.finish (dbuf : List Nat) (dlen : Nat) (src : List Byte) (si : Nat)
    (err : Option GoError) : Quantum :=
  let val := dbuf.getD 0 0 <<< 18 ||| dbuf.getD 1 0 <<< 12 ||| dbuf.getD 2 0 <<< 6 ||| dbuf.getD 3 0
  ⟨src, si, [byte (val >>> 16), byte (val >>> 8), byte (val >>> 0)].take (dlen - 1), err⟩

/-- The end of a padded quantum: newlines are skipped and anything left is
trailing garbage (the error is set, the bytes are still written). -/
def decodeQuantum.padded (dbuf : List Nat) (j : Nat) (src : List Byte) (si : Nat) : Quantum :=
  match skipNewlines src si with
  | ([], si) => decodeQuantum.finish dbuf j [] si none
  | (c :: src, si) => decodeQuantum.finish dbuf j (c :: src) si (some (GoError.CorruptInputError si))

/-- The loop `for j := 0; j < len(dbuf); j++` of `decodeQuantum`, entered at
index `j` with the input from `si` on. -/
def decodeQuantum.loop : List Byte → Nat → Nat → List Nat → Quantum
  | [], si, j, dbuf =>
    if 4 ≤ j then decodeQuantum.finish dbuf 4 [] si none
    else if j = 0 then ⟨[], si, [], none⟩
    else ⟨[], si, [], some (GoError.CorruptInputError (si - j))⟩
  | c :: src, si, j, dbuf =>
    if 4 ≤ j then decodeQuantum.finish dbuf 4 (c :: src) si none
    else
      let si := si + 1
      let out := decodeMap c
      if out ≠ 0xFF then decodeQuantum.loop src si (j + 1) (dbuf.set j out)
      else if c = LF ∨ c = CR then decodeQuantum.loop src si j dbuf
      else if c ≠ StdPadding then ⟨src, si, [], some (GoError.CorruptInputError (si - 1))⟩
      else if j = 0 ∨ j = 1 then ⟨src, si, [], some (GoError.CorruptInputError (si - 1))⟩
      else if j = 2 then
        match skipNewlines src si with
        | ([], si) => ⟨[], si, [], some (GoError.CorruptInputError si)⟩
        | (d :: src, si) =>
          if d ≠ StdPadding then ⟨d :: src, si, [], some (GoError.CorruptInputError (si - 1))⟩
          else decodeQuantum.padded dbuf j src (si + 1)
      else decodeQuantum.padded dbuf j src si

/-- The method `decodeQuantum`: up to four base64 characters from offset `si`. -/
def decodeQuantum (src : List Byte) (si : Nat) : Quantum :=
  decodeQuantum.loop src si 0 [0, 0, 0, 0]

/-- The loop `for si < len(src)` of `Decode`.  Every round reads at least one
byte, so `len(src)` rounds are enough (`Decode.loop_fuel`). -/
def Decode.loop : Nat → List Byte → Nat → List Byte → List Byte × Option GoError
  | 0, _, _, dst => (dst, none)
  | _ + 1, [], _, dst => (dst, none)
  | fuel + 1, c :: src, si, dst =>
    let q := decodeQuantum (c :: src) si
    match q.err with
    | some err => (dst ++ q.out, some err)
    | none => Decode.loop fuel q.rest q.nsi (dst ++ q.out)

/-- The method `Decode` of `StdEncoding`: the bytes written and the error. -/
def Decode (src : List Byte) : List Byte × Option GoError :=
  if src.length = 0 then ([], none) else Decode.loop src.length src 0 []

/-- The method `DecodeString` of `StdEncoding`: `dbuf[:n], err`. -/
def DecodeString (s : List Byte) : List Byte × Option GoError := Decode s

/-- The function `decode` of controller.go. -/
def decode (encoded : List Byte) : List Byte × Option GoError :=
  match DecodeString encoded with
  | (_, some err) => ([], some err)
  | (decodedBytes, none) => (decodedBytes, none)

/-! ### The decoder as one pass over the input

`decodeStream` reads the input once, carrying the index `j` and the buffer of
the quantum in progress across the characters; `Decode_eq_decodeStream` shows
that it computes `Decode`. -/

/-- One pass over the input: an alphabet character fills the quantum (the
fourth one writes three bytes), a newline is skipped, and any other character
is settled by `decodeQuantum.loop` at that position. -/
def decodeStream : List Byte → Nat → Nat → List Nat → List Byte → List Byte × Option GoError
  | [], si, j, _, dst =>
    if j = 0 then (dst, none) else (dst, some (GoError.CorruptInputError (si - j)))
  | c :: src, si, j, dbuf, dst =>
    if decodeMap c ≠ 0xFF then
      if j = 3 then
        decodeStream src (si + 1) 0 [0, 0, 0, 0]
          (dst ++ (decodeQuantum.finish (dbuf.set 3 (decodeMap c)) 4 src (si + 1) none).out)
      else decodeStream src (si + 1) (j + 1) (dbuf.set j (decodeMap c)) dst
    else if c = LF ∨ c = CR then decodeStream src (si + 1) j dbuf dst
    else
      (dst ++ (decodeQuantum.loop (c :: src) si j dbuf).out,
        (decodeQuantum.loop (c :: src) si j dbuf).err)

/-! ### The standard encoding, RFC 4648 section 4

The encoder, the valid strings and their plaintext are the side the decoder is
compared with; they follow the RFC, not the code of the decoder. -/

/-- The alphabet character of a 6-bit value. -/
def stdChar (v : Nat) : Byte := encodeStd.getD v 0

/-- The 6-bit value of an alphabet character. -/
def sextet (c : Byte) : Nat := encodeStd.indexOf c

/-- The standard padded base64 encoding (`StdEncoding.EncodeToString`): three
bytes make a 24-bit group written as four alphabet characters; a last group of
one or two bytes is filled with zero bits and padded with `=`. -/
def EncodeToString : List Byte → List Byte
  | b0 :: b1 :: b2 :: src =>
    let val := b0.val * 65536 + b1.val * 256 + b2.val
    stdChar (val / 262144 % 64) :: stdChar (val / 4096 % 64) :: stdChar (val / 64 % 64)
      :: stdChar (val % 64) :: EncodeToString src
  | [b0, b1] =>
    let val := b0.val * 65536 + b1.val * 256
    [stdChar (val / 262144 % 64), stdChar (val / 4096 % 64), stdChar (val / 64 % 64), StdPadding]
  | [b0] =>
    let val := b0.val * 65536
    [stdChar (val / 262144 % 64), stdChar (val / 4096 % 64), StdPadding, StdPadding]
  | [] => []

/-- A valid standard base64 string: quanta of four alphabet characters, the
last of which may end in one or two padding characters.  So every character is
in the alphabet or is final padding, and the length is a multiple of four. -/
def validStd : List Byte → Bool
  | a :: b :: c :: d :: rest =>
    decide (a ∈ encodeStd) && decide (b ∈ encodeStd) &&
      (if c = StdPadding then decide (d = StdPadding) && rest.isEmpty
       else decide (c ∈ encodeStd) &&
        (if d = StdPadding then rest.isEmpty else decide (d ∈ encodeStd) && validStd rest))
  | [] => true
  | _ => false

/-- The plaintext of a valid standard base64 string: each quantum gives the
three bytes of its 24-bit group, a quantum padded with `=` the first two, one
padded with `==` the first. -/
def plaintext : List Byte → List Byte
  | a :: b :: c :: d :: rest =>
    if c = StdPadding then [byte (sextet a * 4 + sextet b / 16)]
    else if d = StdPadding then
      [byte (sextet a * 4 + sextet b / 16), byte (sextet b % 16 * 16 + sextet c / 4)]
    else
      byte (sextet a * 4 + sextet b / 16) :: byte (sextet b % 16 * 16 + sextet c / 4)
        :: byte (sextet c % 4 * 64 + sextet d) :: plaintext rest
  | _ => []

/-- The bits of the last character before the padding that belong to no byte
are zero (RFC 4648 section 3.5): four bits before `==`, two bits before `=`. -/
def tailBitsZero : List Byte → Bool
  | _ :: b :: c :: d :: rest =>
    if c = StdPadding then sextet b % 16 == 0
    else if d = StdPadding then sextet c % 4 == 0
    else tailBitsZero rest
  | _ => true

/-- The input without its carriage returns and line feeds. -/
def stripNewlines (s : List Byte) : List Byte := s.filter fun c => ¬(c = LF ∨ c = CR)

/-- The result `r` of the decoder, started with `dst` already written, is what
the standard encoding prescribes for `t`: no error exactly when `t` is valid, and
then the plaintext of `t` appended to `dst`. -/
def decodesAs (r : List Byte × Option GoError) (dst t : List Byte) : Prop :=
  (r.2 = none ↔ validStd t = true) ∧ (validStd t = true → r.1 = dst ++ plaintext t)

/-! ## Kubernetes API values used by the builders -/

namespace intstr

/-- The type `intstr.IntOrString`. -/
inductive IntOrString where
  | Int (v : Int)
  | String (v : String)
  deriving DecidableEq, Repr

/-- The function `intstr.FromInt`. -/
def FromInt (v : Int) : IntOrString := IntOrString.Int v

end intstr

namespace resource

/-- A `resource.Quantity`, kept as the text it was parsed from. -/
structure Quantity where
  text : String
  deriving DecidableEq, Repr

/-- The function `resource.MustParse`; every call site passes a literal that parses. -/
def MustParse (str : String) : Quantity := ⟨str⟩

end resource

namespace corev1

structure HTTPGetAction where
  Path : String := ""
  Port : intstr.IntOrString := intstr.IntOrString.Int 0
  deriving DecidableEq, Repr

structure ExecAction where
  Command : List String := []
  deriving DecidableEq, Repr

structure Handler where
  Exec : Option ExecAction := none
  HTTPGet : Option HTTPGetAction := none
  deriving DecidableEq, Repr

structure Probe where
  Handler : Handler := {}
  InitialDelaySeconds : Int := 0
  PeriodSeconds : Int := 0
  FailureThreshold : Int := 0
  deriving DecidableEq, Repr

structure ObjectFieldSelector where
  FieldPath : String := ""
  deriving DecidableEq, Repr

structure EnvVarSource where
  FieldRef : Option ObjectFieldSelector := none
  deriving DecidableEq, Repr

structure EnvVar where
  Name : String := ""
  Value : String := ""
  ValueFrom : Option EnvVarSource := none
  deriving DecidableEq, Repr

/-- A `ResourceList`: resource names with their quantities. -/
abbrev ResourceList := List (String × resource.Quantity)

structure ResourceRequirements where
  Limits : ResourceList := []
  Requests : ResourceList := []
  deriving DecidableEq, Repr

structure ContainerPort where
  Name : String := ""
  ContainerPort : Int := 0
  deriving DecidableEq, Repr

structure VolumeMount where
  Name : String := ""
  MountPath : String := ""
  deriving DecidableEq, Repr

structure SecretVolumeSource where
  SecretName : String := ""
  deriving DecidableEq, Repr

structure VolumeSource where
  Secret : Option SecretVolumeSource := none
  deriving DecidableEq, Repr

structure Volume where
  Name : String := ""
  VolumeSource : VolumeSource := {}
  deriving DecidableEq, Repr

structure Secret where
  Name : String := ""
  deriving DecidableEq, Repr

/-- The fields of a live `corev1.Container` the package reads. -/
structure Container where
  Name : String := ""
  Image : String := ""
  Command : List String := []
  Args : List String := []
  deriving DecidableEq, Repr

/-- The constant `corev1.ServiceTypeLoadBalancer`. -/
def ServiceTypeLoadBalancer : String := "LoadBalancer"

/-- The constant `corev1.ServiceExternalTrafficPolicyTypeLocal`. -/
def ServiceExternalTrafficPolicyTypeLocal : String := "Local"

/-- The constant `corev1.ServiceExternalTrafficPolicyTypeCluster`. -/
def ServiceExternalTrafficPolicyTypeCluster : String := "Cluster"

end corev1

namespace rbacv1

structure PolicyRule where
  Verbs : List String := []
  APIGroups : List String := []
  Resources : List String := []
  deriving DecidableEq, Repr

end rbacv1

/-! ## The desired specification -/

namespace iofogv1

/-- The type `iofogv1.Database`, with the fields `newControllerMicroservice` reads. -/
structure Database where
  Provider : String := ""
  Host : String := ""
  Port : Int := 0
  User : String := ""
  Password : String := ""
  DatabaseName : String := ""
  deriving DecidableEq, Repr

/-- Modelled from the spec: the declaration of the credential pair is not among
the sources; a user name and the password, base64 at rest. -/
structure IofogUser where
  Email : String := ""
  Password : List Byte := []
  deriving DecidableEq, Repr

/-- Modelled from the spec: the coordinator settings (replica count, image,
exposure type, load-balancer hint, database parameters, credential pair). -/
structure ControlPlane where
  IofogUser : IofogUser := {}
  ControllerReplicaCount : Int := 0
  ControllerImage : String := ""
  ImagePullSecret : String := ""
  ServiceType : String := ""
  LoadBalancerIP : String := ""
  Database : Database := {}
  deriving DecidableEq, Repr

/-- Modelled from the spec: the policy-manager settings. -/
structure PortManager where
  WatchNamespace : String := ""
  Image : String := ""
  deriving DecidableEq, Repr

/-- Modelled from the spec: the overlay-router settings. -/
structure Skupper where
  Image : String := ""
  VolumeMountPath : String := ""
  deriving DecidableEq, Repr

/-- Modelled from the spec: the desired-state root `ControlPlaneSpec`. -/
structure KogSpec where
  ControlPlane : ControlPlane := {}
  KubeletImage : String := ""
  PortManager : PortManager := {}
  Skupper : Skupper := {}
  deriving DecidableEq, Repr

/-- Modelled from the spec: the object `iofogv1.Kog`, identified by namespace and name. -/
structure Kog where
  Namespace : String := ""
  Name : String := ""
  Spec : KogSpec := {}
  deriving DecidableEq, Repr

end iofogv1

/-! ## microservices.go -/

/-- The function `strings.Index.go`, the search of `strings.Index` from offset `i` on. -/
def strings.Index.go (substr : List Byte) : List Byte → Nat → Int
  | [], i => if substr.isEmpty then i else -1
  | c :: s, i => if substr.isPrefixOf (c :: s) then i else strings.Index.go substr s (i + 1)

/-- The function `strings.Index`: the offset of the first instance of `substr`
in `s`, or -1 when there is none. -/
def strings.Index (s substr : List Byte) : Int := strings.Index.go substr s 0

/-- The function `getConnectorNamePrefix`. -/
def getConnectorNamePrefix : List Byte := ascii "connector-"

/-- The function `prefixConnectorName`. -/
def prefixConnectorName (name : List Byte) : List Byte := ascii "connector-" ++ name

/-- The function `removeConnectorNamePrefix`; the names are byte strings, and
`none` stands for the panic of a slice expression `name[pos+1:]` out of range. -/
def removeConnectorNamePrefix (name : List Byte) : Option (List Byte) :=
  let pos := strings.Index name (ascii "-")
  if pos = -1 ∨ pos ≥ (name.length : Int) - 1 then some name
  else if 0 ≤ pos + 1 ∧ pos + 1 ≤ (name.length : Int) then some (name.drop (pos + 1).toNat)
  else none

/-- The struct `container`. -/
structure container where
  name : String := ""
  image : String := ""
  imagePullPolicy : String := ""
  args : List String := []
  livenessProbe : Option corev1.Probe := none
  readinessProbe : Option corev1.Probe := none
  env : List corev1.EnvVar := []
  command : List String := []
  ports : List corev1.ContainerPort := []
  resources : corev1.ResourceRequirements := {}
  volumeMounts : List corev1.VolumeMount := []
  deriving DecidableEq, Repr

/-- The struct `microservice`; the two maps are association lists. -/
structure microservice where
  name : String := ""
  loadBalancerIP : String := ""
  serviceType : String := ""
  trafficPolicy : String := ""
  imagePullSecret : String := ""
  ports : List Int := []
  replicas : Int := 0
  containers : List container := []
  labels : List (String × String) := []
  annotations : List (String × String) := []
  secrets : List corev1.Secret := []
  volumes : List corev1.Volume := []
  rbacRules : List rbacv1.PolicyRule := []
  deriving DecidableEq, Repr

/-- The function `getTrafficPolicy`. -/
def getTrafficPolicy (serviceType : String) : String :=
  if serviceType = corev1.ServiceTypeLoadBalancer then
    corev1.ServiceExternalTrafficPolicyTypeLocal
  else
    corev1.ServiceExternalTrafficPolicyTypeCluster

/-- The function `strconv.Itoa`. -/
def strconv.Itoa (i : Int) : String := toString i

/-- The function `newControllerMicroservice`; `replicas` is an `int32`. -/
def newControllerMicroservice (replicas : Int) (image imagePullSecret : String)
    (db : iofogv1.Database) (svcType loadBalancerIP : String) : microservice :=
  let replicas := if replicas = 0 then 1 else replicas
  { name := "controller"
    labels := [("name", "controller")]
    ports := [51121, 80]
    imagePullSecret := imagePullSecret
    replicas := replicas
    serviceType := svcType
    trafficPolicy := getTrafficPolicy svcType
    loadBalancerIP := loadBalancerIP
    containers := [
      { name := "controller"
        image := image
        imagePullPolicy := "Always"
        readinessProbe := some
          { Handler := { HTTPGet := some { Path := "/api/v3/status", Port := intstr.FromInt 51121 } }
            InitialDelaySeconds := 1
            PeriodSeconds := 4
            FailureThreshold := 3 }
        env := [
          { Name := "DB_PROVIDER", Value := db.Provider },
          { Name := "DB_NAME", Value := db.DatabaseName },
          { Name := "DB_USERNAME", Value := db.User },
          { Name := "DB_PASSWORD", Value := db.Password },
          { Name := "DB_HOST", Value := db.Host },
          { Name := "DB_PORT", Value := strconv.Itoa db.Port } ]
        resources :=
          { Limits := [("cpu", resource.MustParse "1800m"), ("memory", resource.MustParse "3Gi")]
            Requests := [("cpu", resource.MustParse "400m"), ("memory", resource.MustParse "1Gi")] } } ] }

/-- The function `getKubeletToken`.  The named results start as the empty
string and nil; `none` stands for an index-out-of-range panic. -/
def getKubeletToken (containers : List corev1.Container) : Option (String × Option GoError) :=
  if containers.length ≠ 1 then
    some ("", some (errors.New
      ("Expected 1 container in Kubelet deployment config. Found " ++ toString containers.length)))
  else
    match containers[0]? with
    | none => none
    | some c0 =>
      if c0.Args.length ≠ 6 then
        some ("", some (errors.New
          ("Expected 6 args in Kubelet deployment config. Found " ++ toString c0.Args.length)))
      else
        match c0.Args[3]? with
        | none => none
        | some token => some (token, none)

/-- The function `newConnectorMicroservice`. -/
def newConnectorMicroservice (image svcType : String) : microservice :=
  { name := "connector"
    labels := [("name", "connector")]
    ports := [
      8080,
      6000, 6001, 6002, 6003, 6004, 6005, 6006, 6007, 6008, 6009,
      6010, 6011, 6012, 6013, 6014, 6015, 6016, 6017, 6018, 6019,
      6020, 6021, 6022, 6023, 6024, 6025, 6026, 6027, 6028, 6029,
      6030, 6031, 6032, 6033, 6034, 6035, 6036, 6037, 6038, 6039,
      6040, 6041, 6042, 6043, 6044, 6045, 6046, 6047, 6048, 6049,
      6050 ]
    replicas := 1
    serviceType := svcType
    trafficPolicy := getTrafficPolicy svcType
    containers := [
      { name := "connector"
        image := image
        imagePullPolicy := "Always"
        resources :=
          { Limits := [("cpu", resource.MustParse "200m"), ("memory", resource.MustParse "1Gi")]
            Requests := [("cpu", resource.MustParse "50m"), ("memory", resource.MustParse "200Mi")] } } ] }

/-- The function `newKubeletMicroservice`; `fmt.Sprintf("http://%s", e)` is
`http://` followed by `e`. -/
def newKubeletMicroservice (image namespace_ token controllerEndpoint : String) : microservice :=
  { name := "kubelet"
    labels := [("name", "kubelet")]
    ports := [60000]
    replicas := 1
    containers := [
      { name := "kubelet"
        image := image
        imagePullPolicy := "Always"
        args := [
          "--namespace",
          namespace_,
          "--iofog-token",
          token,
          "--iofog-url",
          "http://" ++ controllerEndpoint ]
        resources :=
          { Limits := [("cpu", resource.MustParse "200m"), ("memory", resource.MustParse "1Gi")]
            Requests := [("cpu", resource.MustParse "50m"), ("memory", resource.MustParse "200Mi")] } } ] }

/-- The function `newPortManagerMicroservice`. -/
def newPortManagerMicroservice (image watchNamespace iofogUserEmail iofogUserPass : String) :
    microservice :=
  { name := "port-manager"
    labels := [("name", "port-manager")]
    replicas := 1
    containers := [
      { name := "port-manager"
        image := image
        imagePullPolicy := "Always"
        readinessProbe := some
          { Handler := { Exec := some { Command := ["stat", "/tmp/operator-sdk-ready"] } }
            InitialDelaySeconds := 4
            PeriodSeconds := 10
            FailureThreshold := 1 }
        resources :=
          { Limits := [("cpu", resource.MustParse "200m"), ("memory", resource.MustParse "1Gi")]
            Requests := [("cpu", resource.MustParse "50m"), ("memory", resource.MustParse "200Mi")] }
        env := [
          { Name := "WATCH_NAMESPACE", Value := watchNamespace },
          { Name := "IOFOG_USER_EMAIL", Value := iofogUserEmail },
          { Name := "IOFOG_USER_PASS", Value := iofogUserPass } ] } ] }

/-- The function `newSkupperMicroservice`.  The package constant `routerConfig`
is declared outside the two source files and is taken as the first argument. -/
def newSkupperMicroservice (routerConfig image volumeMountPath : String) : microservice :=
  { name := "skupper"
    labels := [
      ("name", "skupper"),
      ("application", "skupper-router"),
      ("skupper.io/component", "router") ]
    annotations := [
      ("prometheus.io/port", "9090"),
      ("prometheus.io/scrape", "true") ]
    ports := [5671, 9090, 55671, 45671]
    replicas := 1
    serviceType := "LoadBalancer"
    trafficPolicy := "Local"
    rbacRules := [
      { Verbs := ["get", "list", "watch"]
        APIGroups := [""]
        Resources := ["pods"] } ]
    volumes := [
      { Name := "skupper-internal"
        VolumeSource := { Secret := some { SecretName := "skupper-internal" } } },
      { Name := "skupper-amqps"
        VolumeSource := { Secret := some { SecretName := "skupper-amqps" } } } ]
    containers := [
      { name := "skupper"
        image := image
        imagePullPolicy := "Always"
        livenessProbe := some
          { InitialDelaySeconds := 60
            Handler := { HTTPGet := some { Port := intstr.FromInt 9090, Path := "/healthz" } } }
        env := [
          { Name := "APPLICATION_NAME", Value := "skupper-router" },
          { Name := "QDROUTERD_AUTO_MESH_DISCOVERY", Value := "QUERY" },
          { Name := "QDROUTERD_CONF", Value := routerConfig },
          { Name := "POD_NAMESPACE"
            ValueFrom := some { FieldRef := some { FieldPath := "metadata.namespace" } } },
          { Name := "POD_IP"
            ValueFrom := some { FieldRef := some { FieldPath := "status.podIP" } } } ]
        volumeMounts := [
          { Name := "skupper-internal", MountPath := volumeMountPath ++ "/skupper-internal" },
          { Name := "skupper-amqps", MountPath := volumeMountPath ++ "/skupper-amqps" } ]
        resources :=
          { Limits := [("cpu", resource.MustParse "200m"), ("memory", resource.MustParse "1Gi")]
            Requests := [("cpu", resource.MustParse "50m"), ("memory", resource.MustParse "200Mi")] } } ] }

/-! ### Decimal integers

Reading a decimal integer back, the side `strconv.Itoa` is compared with. -/

/-- The value of a decimal digit. -/
def digitValue (c : Char) : Option Nat :=
  if 48 ≤ c.toNat ∧ c.toNat ≤ 57 then some (c.toNat - 48) else none

/-- The number written by decimal digits, read from the left after `acc`. -/
def readDigits : Nat → List Char → Option Nat
  | acc, [] => some acc
  | acc, c :: cs =>
    match digitValue c with
    | some d => readDigits (acc * 10 + d) cs
    | none => none

/-- The number written by a non-empty string of decimal digits. -/
def parseDigits (cs : List Char) : Option Nat :=
  if cs.isEmpty then none else readDigits 0 cs

/-- The integer written in base 10: digits, after a minus sign for a negative number. -/
def parseDecimal (s : String) : Option Int :=
  match s.data with
  | [] => none
  | c :: cs =>
    if c = '-' then (parseDigits cs).map fun n => -(n : Int)
    else (parseDigits (c :: cs)).map fun n => (n : Int)

/-! ## controller.go -/

namespace reconcile

/-- The key `types.NamespacedName` of a request. -/
structure Request where
  Namespace : String := ""
  Name : String := ""
  deriving DecidableEq, Repr

/-- The type `reconcile.Result`; `RequeueAfter` in nanoseconds. -/
structure Result where
  Requeue : Bool := false
  RequeueAfter : Int := 0
  deriving DecidableEq, Repr

end reconcile

/-- The four component reconcilers. -/
inductive Stage where
  | controller
  | kubelet
  | portManager
  | skupper
  deriving DecidableEq, Repr

/-- What a pass does, in the order it does it: a log line, the fetch of the
desired spec, the credential decoding, and each call of a component reconciler
with the spec it was handed and the error it returned. -/
inductive Event where
  | info (msg : String)
  | get (request : reconcile.Request) (err : Option GoError)
  | decode (encoded : List Byte) (err : Option GoError)
  | reconcile (stage : Stage) (kog : iofogv1.Kog) (err : Option GoError)
  deriving DecidableEq, Repr

/-- The receiver `ReconcileKog` as `Reconcile` uses it, over a state `σ` that
holds the cluster and the receiver's own fields.  `clientGet` is `r.client.Get`.
The four `reconcile*` methods are not among the sources and are taken as they
come: each is handed the pointer `kog`, so it may read and write the spec and
act on the state, and it returns its error, the spec as it leaves it (what the
next method finds behind the same pointer) and the state. -/
structure ReconcileKog (σ : Type) where
  clientGet : reconcile.Request → σ → Except GoError iofogv1.Kog × σ
  reconcileIofogController : iofogv1.Kog → σ → Option GoError × iofogv1.Kog × σ
  reconcileIofogKubelet : iofogv1.Kog → σ → Option GoError × iofogv1.Kog × σ
  reconcilePortManager : iofogv1.Kog → σ → Option GoError × iofogv1.Kog × σ
  reconcileSkupper : iofogv1.Kog → σ → Option GoError × iofogv1.Kog × σ

/-- The results of one call of `Reconcile`, the state it leaves and the events of the pass. -/
structure Pass (σ : Type) where
  result : reconcile.Result
  err : Option GoError
  state : σ
  trace : List Event

/-- The spec with its credential password replaced
(`kog.Spec.ControlPlane.IofogUser.Password = ...`). -/
def setPassword (kog : iofogv1.Kog) (password : List Byte) : iofogv1.Kog :=
  { kog with Spec.ControlPlane.IofogUser.Password := password }

/-- The method `(*ReconcileKog).Reconcile`.  The spec behind the pointer `kog`
is written once by `Reconcile`, with the decoded password; `kog1`, `kog2` and
`kog3` are the same object as the reconcilers before left it. -/
def Reconcile {σ : Type} (r : ReconcileKog σ) (request : reconcile.Request) (s : σ) : Pass σ :=
  let t := [Event.info "Reconciling Control Plane"]
  match r.clientGet request s with
  | (Except.error err, s) =>
    let t := t ++ [Event.get request (some err)]
    if IsNotFound err then ⟨{}, none, s, t⟩ else ⟨{}, some err, s, t⟩
  | (Except.ok kog, s) =>
    let t := t ++ [Event.get request none]
    match decode kog.Spec.ControlPlane.IofogUser.Password with
    | (_, some err) =>
      ⟨{}, some err, s, t ++ [Event.decode kog.Spec.ControlPlane.IofogUser.Password (some err)]⟩
    | (password, none) =>
      let t := t ++ [Event.decode kog.Spec.ControlPlane.IofogUser.Password none]
      let kog := setPassword kog password
      match r.reconcileIofogController kog s with
      | (some err, _, s) =>
        ⟨{}, some err, s, t ++ [Event.reconcile Stage.controller kog (some err)]⟩
      | (none, kog1, s) =>
        let t := t ++ [Event.reconcile Stage.controller kog none]
        match r.reconcileIofogKubelet kog1 s with
        | (some err, _, s) =>
          ⟨{}, some err, s, t ++ [Event.reconcile Stage.kubelet kog1 (some err)]⟩
        | (none, kog2, s) =>
          let t := t ++ [Event.reconcile Stage.kubelet kog1 none]
          match r.reconcilePortManager kog2 s with
          | (some err, _, s) =>
            ⟨{}, some err, s, t ++ [Event.reconcile Stage.portManager kog2 (some err)]⟩
          | (none, kog3, s) =>
            let t := t ++ [Event.reconcile Stage.portManager kog2 none]
            match r.reconcileSkupper kog3 s with
            | (some err, _, s) =>
              ⟨{}, some err, s, t ++ [Event.reconcile Stage.skupper kog3 (some err)]⟩
            | (none, _, s) =>
              ⟨{}, none, s,
                t ++ [Event.reconcile Stage.skupper kog3 none,
                  Event.info "Completed Reconciliation"]⟩

/-! ## Observations on a pass -/

/-- The fixed order of the component reconcilers. -/
def reconcilerOrder : List Stage :=
  [Stage.controller, Stage.kubelet, Stage.portManager, Stage.skupper]

/-- The stages that come before `st` in the fixed order. -/
def stagesBefore (st : Stage) : List Stage := reconcilerOrder.takeWhile fun x => x ≠ st

/-- The reconciler method of a stage. -/
def ReconcileKog.run {σ : Type} (r : ReconcileKog σ) :
    Stage → iofogv1.Kog → σ → Option GoError × iofogv1.Kog × σ
  | Stage.controller => r.reconcileIofogController
  | Stage.kubelet => r.reconcileIofogKubelet
  | Stage.portManager => r.reconcilePortManager
  | Stage.skupper => r.reconcileSkupper

/-- The spec and the state left by running the listed stages one after the other. -/
def stateAfter {σ : Type} (r : ReconcileKog σ) : iofogv1.Kog × σ → List Stage → iofogv1.Kog × σ
  | ks, [] => ks
  | ks, st :: rest => stateAfter r (r.run st ks.1 ks.2).2 rest

/-- What stage `st` returns when it is reached, that is, when the stages before
it have run from the spec `kog` and the state `s`. -/
def outcomeAt {σ : Type} (r : ReconcileKog σ) (kog : iofogv1.Kog) (s : σ) (st : Stage) :
    Option GoError × iofogv1.Kog × σ :=
  r.run st (stateAfter r (kog, s) (stagesBefore st)).1 (stateAfter r (kog, s) (stagesBefore st)).2

/-- The component reconcilers a trace invokes, in order, each with the error it returned. -/
def stageCalls (t : List Event) : List (Stage × Option GoError) :=
  t.filterMap fun
    | Event.reconcile st _ err => some (st, err)
    | _ => none

/-- The component reconcilers a trace invokes, in order. -/
def stagesInvoked (t : List Event) : List Stage := (stageCalls t).map Prod.fst

/-- The inputs of the credential decodings in a trace. -/
def decodeCalls (t : List Event) : List (List Byte) :=
  t.filterMap fun
    | Event.decode encoded _ => some encoded
    | _ => none

/-- A reconciler over a journal of the stages that ran: the spec in `cluster`
is fetched when present, and the stage `failAt` (if any) reports an error. -/
def journal (cluster : Option iofogv1.Kog) (failAt : Option Stage) : ReconcileKog (List Stage) where
  clientGet _ s :=
    match cluster with
    | some kog => (Except.ok kog, s)
    | none => (Except.error (GoError.StatusError "NotFound" "kogs.k8s.iofog.org not found"), s)
  reconcileIofogController kog s :=
    (if failAt = some Stage.controller then some (errors.New "controller") else none, kog,
      s ++ [Stage.controller])
  reconcileIofogKubelet kog s :=
    (if failAt = some Stage.kubelet then some (errors.New "kubelet") else none, kog,
      s ++ [Stage.kubelet])
  reconcilePortManager kog s :=
    (if failAt = some Stage.portManager then some (errors.New "port-manager") else none, kog,
      s ++ [Stage.portManager])
  reconcileSkupper kog s :=
    (if failAt = some Stage.skupper then some (errors.New "skupper") else none, kog,
      s ++ [Stage.skupper])

/-- A reconciler whose fetch fails with an error that is not a not-found error. -/
def unreachable : ReconcileKog (List Stage) :=
  { journal none none with
    clientGet := fun _ s => (Except.error (GoError.StatusError "Timeout" "request timed out"), s) }

/-- A desired spec whose password is the base64 text of `pass`. -/
def sampleKog : iofogv1.Kog :=
  { Namespace := "iofog", Name := "kog"
    Spec := { ControlPlane := { IofogUser := { Email := "u@e.org", Password := ascii "cGFzcw==" } } } }

/-- A desired spec whose password is not base64. -/
def brokenKog : iofogv1.Kog := setPassword sampleKog (ascii "pa$$")

/-- A desired spec whose password is the base64 text of `pass` broken over two lines. -/
def wrappedKog : iofogv1.Kog := setPassword sampleKog (ascii "cGFz\ncw==\n")

/-- A call as a reconciler method receives it: the stage, the spec it finds
behind the pointer, and the error it returns. -/
structure Received where
  stage : Stage
  kog : iofogv1.Kog
  err : Option GoError
  deriving DecidableEq, Repr

/-- The reconciler `r` under observation: each of its four methods does what it
does in `r` and notes, itself, the call it received in a list kept next to the
state.  What the list holds is what `Reconcile` really called, whatever the
trace of the pass says. -/
def spy {σ : Type} (r : ReconcileKog σ) : ReconcileKog (σ × List Received) where
  clientGet request s := ((r.clientGet request s.1).1, ((r.clientGet request s.1).2, s.2))
  reconcileIofogController kog s :=
    ((r.reconcileIofogController kog s.1).1, (r.reconcileIofogController kog s.1).2.1,
      ((r.reconcileIofogController kog s.1).2.2,
        s.2 ++ [⟨Stage.controller, kog, (r.reconcileIofogController kog s.1).1⟩]))
  reconcileIofogKubelet kog s :=
    ((r.reconcileIofogKubelet kog s.1).1, (r.reconcileIofogKubelet kog s.1).2.1,
      ((r.reconcileIofogKubelet kog s.1).2.2,
        s.2 ++ [⟨Stage.kubelet, kog, (r.reconcileIofogKubelet kog s.1).1⟩]))
  reconcilePortManager kog s :=
    ((r.reconcilePortManager kog s.1).1, (r.reconcilePortManager kog s.1).2.1,
      ((r.reconcilePortManager kog s.1).2.2,
        s.2 ++ [⟨Stage.portManager, kog, (r.reconcilePortManager kog s.1).1⟩]))
  reconcileSkupper kog s :=
    ((r.reconcileSkupper kog s.1).1, (r.reconcileSkupper kog s.1).2.1,
      ((r.reconcileSkupper kog s.1).2.2,
        s.2 ++ [⟨Stage.skupper, kog, (r.reconcileSkupper kog s.1).1⟩]))

/-- The calls the four methods of `r` receive in one pass from state `s`. -/
def received {σ : Type} (r : ReconcileKog σ) (request : reconcile.Request) (s : σ) :
    List Received :=
  (Reconcile (spy r) request (s, [])).state.2

/-- A reconciler whose controller method overwrites the image of the spec
behind the pointer; the other methods are those of the journal. -/
def meddling : ReconcileKog (List Stage) :=
  { journal (some sampleKog) none with
    reconcileIofogController := fun kog s =>
      (none, { kog with Spec.ControlPlane.ControllerImage := "other" },
        s ++ [Stage.controller]) }

/-! ## The component reconcilers, from the specification

The four `reconcile*` methods and the helpers they converge the cluster with
are not in the two source files.  What follows renders section 4.3 of the
specification: the live state per component name, the calls a reconciler
issues to the platform, the shared convergence algorithm and the four
reconcilers built on it. -/

/-- Modelled from the spec: the live component state, which is missing from
the sources; the live bundle of each component name, if it exists. -/
abbrev Live := String → Option microservice

/-- Modelled from the spec: the calls of a reconciler to the orchestration
platform, which are missing from the sources: the read of the live object of a
name, and the two mutating calls, create and update, with the bundle they carry. -/
inductive Call where
  | get (name : String)
  | create (name : String) (bundle : microservice)
  | update (name : String) (bundle : microservice)
  deriving DecidableEq, Repr

/-- Modelled from the spec: the mutating calls, create and update; the calls
are missing from the sources. -/
def Call.mutating : Call → Bool
  | Call.get _ => false
  | Call.create _ _ => true
  | Call.update _ _ => true

/-- Modelled from the spec: the live state after an accepted call, which is
missing from the sources: create and update store the bundle they carry (an
update carries the full desired state), a read changes nothing. -/
def Call.effect : Call → Live → Live
  | Call.get _, live => live
  | Call.create name bundle, live => Function.update live name (some bundle)
  | Call.update name bundle, live => Function.update live name (some bundle)

/-- Modelled from the spec: the orchestration platform, which is missing from
the sources.  It answers the fetch of the desired spec, may reject a read or a
write (a platform error, decided by the call and the live state), and gives the
reachable endpoint of the live coordinator; `routerConfig` is the constant of
that name. -/
structure Platform where
  fetch : reconcile.Request → Except GoError iofogv1.Kog
  rejects : Call → Live → Option GoError
  endpointOf : microservice → String
  routerConfig : String

/-- Modelled from the spec: the state the reconcilers act on, which is missing
from the sources: the live components, the field `apiEndpoint` of the receiver,
and the journal of the calls issued with their outcome. -/
structure World where
  live : Live
  apiEndpoint : String
  calls : List (Call × Option GoError)

/-- Modelled from the spec: one call to the platform, which is missing from the
sources; it is journalled, and takes effect unless rejected. -/
def Platform.call (p : Platform) (c : Call) (w : World) : Option GoError × World :=
  match p.rejects c w.live with
  | some err => (some err, { w with calls := w.calls ++ [(c, some err)] })
  | none => (none, { w with live := c.effect w.live, calls := w.calls ++ [(c, none)] })

/-- Modelled from the spec: the observable fields of a bundle that the
convergence algorithm compares, which is missing from the sources: image,
replica count, ports, resource limits, environment, probes, exposure type. -/
structure Observable where
  images : List String
  replicas : Int
  ports : List Int
  resources : List corev1.ResourceRequirements
  env : List (List corev1.EnvVar)
  probes : List (Option corev1.Probe × Option corev1.Probe)
  serviceType : String
  deriving DecidableEq, Repr

/-- The observable fields of a bundle. -/
def observable (m : microservice) : Observable where
  images := m.containers.map fun c => c.image
  replicas := m.replicas
  ports := m.ports
  resources := m.containers.map fun c => c.resources
  env := m.containers.map fun c => c.env
  probes := m.containers.map fun c => (c.livenessProbe, c.readinessProbe)
  serviceType := m.serviceType

/-- Modelled from the spec: the convergence algorithm shared by the four
reconcilers, which is missing from the sources.  Read the live object by name;
if absent, create it from the bundle; if present and its observable fields
diverge from the bundle, update it with the bundle. -/
def converge (p : Platform) (bundle : microservice) (w : World) : Option GoError × World :=
  match p.call (Call.get bundle.name) w with
  | (some err, w) => (some err, w)
  | (none, w) =>
    match w.live bundle.name with
    | none => p.call (Call.create bundle.name bundle) w
    | some live =>
      if observable live ≠ observable bundle then p.call (Call.update bundle.name bundle) w
      else (none, w)

/-- A byte string as text, byte by byte. -/
def goString (b : List Byte) : String := String.mk (b.map fun x => Char.ofNat x.val)

/-- The containers of a live workload as `getKubeletToken` reads them. -/
def liveContainers (m : microservice) : List corev1.Container :=
  m.containers.map fun c =>
    { Name := c.name, Image := c.image, Command := c.command, Args := c.args }

/-- Modelled from the spec: the coordinator reconciler, which is missing from
the sources.  It converges the coordinator bundle and keeps the reachable
endpoint of the live coordinator for the next stage. -/
def specController (p : Platform) (kog : iofogv1.Kog) (w : World) : Option GoError × World :=
  match converge p (newControllerMicroservice kog.Spec.ControlPlane.ControllerReplicaCount
      kog.Spec.ControlPlane.ControllerImage kog.Spec.ControlPlane.ImagePullSecret
      kog.Spec.ControlPlane.Database kog.Spec.ControlPlane.ServiceType
      kog.Spec.ControlPlane.LoadBalancerIP) w with
  | (some err, w) => (some err, w)
  | (none, w) =>
    match w.live "controller" with
    | some live => (none, { w with apiEndpoint := p.endpointOf live })
    | none => (none, w)

/-- Modelled from the spec: the agent-bridge reconciler, which is missing from
the sources.  The token of a live agent-bridge workload is read back with
`getKubeletToken` (a malformed workload is an error), a token minted
externally is used when there is none; then the bundle is converged. -/
def specKubelet (p : Platform) (minted : String) (kog : iofogv1.Kog) (w : World) :
    Option GoError × World :=
  match p.call (Call.get "kubelet") w with
  | (some err, w) => (some err, w)
  | (none, w) =>
    match w.live "kubelet" with
    | none =>
      converge p (newKubeletMicroservice kog.Spec.KubeletImage kog.Namespace minted
        w.apiEndpoint) w
    | some live =>
      match getKubeletToken (liveContainers live) with
      | some (token, none) =>
        converge p (newKubeletMicroservice kog.Spec.KubeletImage kog.Namespace token
          w.apiEndpoint) w
      | some (_, some err) => (some err, w)
      | none => (some (errors.New "index out of range"), w)

/-- Modelled from the spec: the policy-manager reconciler, which is missing
from the sources; it builds its bundle from the spec and the decoded
credentials and converges it. -/
def specPortManager (p : Platform) (kog : iofogv1.Kog) (w : World) : Option GoError × World :=
  converge p (newPortManagerMicroservice kog.Spec.PortManager.Image
    kog.Spec.PortManager.WatchNamespace kog.Spec.ControlPlane.IofogUser.Email
    (goString kog.Spec.ControlPlane.IofogUser.Password)) w

/-- Modelled from the spec: the overlay-router reconciler, which is missing
from the sources; it builds its bundle and converges it. -/
def specSkupper (p : Platform) (kog : iofogv1.Kog) (w : World) : Option GoError × World :=
  converge p (newSkupperMicroservice p.routerConfig kog.Spec.Skupper.Image
    kog.Spec.Skupper.VolumeMountPath) w

/-- Modelled from the spec: the receiver with the four reconcilers of the
specification; the minted token is the one the caller would supply. -/
def specReconciler (p : Platform) (minted : String) : ReconcileKog World where
  clientGet request w := (p.fetch request, w)
  reconcileIofogController kog w := ((specController p kog w).1, kog, (specController p kog w).2)
  reconcileIofogKubelet kog w :=
    ((specKubelet p minted kog w).1, kog, (specKubelet p minted kog w).2)
  reconcilePortManager kog w := ((specPortManager p kog w).1, kog, (specPortManager p kog w).2)
  reconcileSkupper kog w := ((specSkupper p kog w).1, kog, (specSkupper p kog w).2)

/-- One run of the reconciliation pass, its journal starting empty. -/
def runPass (p : Platform) (minted : String) (request : reconcile.Request) (w : World) :
    Pass World :=
  Reconcile (specReconciler p minted) request { w with calls := [] }

/-- The mutating calls of a journal. -/
def mutations (calls : List (Call × Option GoError)) : List Call :=
  (calls.filter fun x => x.1.mutating).map Prod.fst

/-- The mutating calls of a journal that the platform rejected. -/
def rejected (calls : List (Call × Option GoError)) : List Call :=
  (calls.filter fun x => x.1.mutating && x.2.isSome).map Prod.fst

/-- The component name a stage converges. -/
def stageName : Stage → String
  | Stage.controller => "controller"
  | Stage.kubelet => "kubelet"
  | Stage.portManager => "port-manager"
  | Stage.skupper => "skupper"

/-- The stages run one after the other until one returns an error. -/
def runStages {σ : Type} (r : ReconcileKog σ) :
    List Stage → iofogv1.Kog → σ → Option GoError × σ
  | [], _, s => (none, s)
  | st :: rest, kog, s =>
    match r.run st kog s with
    | (some err, _, s) => (some err, s)
    | (none, kog, s) => runStages r rest kog s

/-- The step of a stage of the specification's reconcilers: its error and the
world it leaves (it leaves the spec as it is). -/
def specStep (p : Platform) (kog : iofogv1.Kog) (st : Stage) (minted : String) (w : World) :
    Option GoError × World :=
  (((specReconciler p minted).run st kog w).1, ((specReconciler p minted).run st kog w).2.2)

/-- The bundle a stage converges, for a token and an endpoint (which only the
agent-bridge bundle uses). -/
def stageBundle (p : Platform) (kog : iofogv1.Kog) (token endpoint : String) :
    Stage → microservice
  | Stage.controller =>
    newControllerMicroservice kog.Spec.ControlPlane.ControllerReplicaCount
      kog.Spec.ControlPlane.ControllerImage kog.Spec.ControlPlane.ImagePullSecret
      kog.Spec.ControlPlane.Database kog.Spec.ControlPlane.ServiceType
      kog.Spec.ControlPlane.LoadBalancerIP
  | Stage.kubelet => newKubeletMicroservice kog.Spec.KubeletImage kog.Namespace token endpoint
  | Stage.portManager =>
    newPortManagerMicroservice kog.Spec.PortManager.Image kog.Spec.PortManager.WatchNamespace
      kog.Spec.ControlPlane.IofogUser.Email (goString kog.Spec.ControlPlane.IofogUser.Password)
  | Stage.skupper =>
    newSkupperMicroservice p.routerConfig kog.Spec.Skupper.Image kog.Spec.Skupper.VolumeMountPath

/-- What the idempotence proof uses of a stage `step` (run with a minted token
from a world): it touches only its own component, its journal only grows, a nil
error leaves its component converged with no write rejected, a converged
component is left alone, and a failure with no write rejected changed nothing
and recurs from every world with the same live state. -/
def StageLaw (p : Platform) (kog : iofogv1.Kog) (st : Stage)
    (step : String → World → Option GoError × World) : Prop :=
  ∀ (t : String) (w : World),
    (∀ n, n ≠ stageName st → (step t w).2.live n = w.live n) ∧
    (rejected w.calls).length ≤ (rejected (step t w).2.calls).length ∧
    (mutations w.calls).length ≤ (mutations (step t w).2.calls).length ∧
    ((step t w).1 = none →
      (∃ l, (step t w).2.live (stageName st) = some l ∧
        observable l = observable (stageBundle p kog "" "" st)) ∧
      (rejected (step t w).2.calls).length = (rejected w.calls).length) ∧
    (∀ l, w.live (stageName st) = some l →
      observable l = observable (stageBundle p kog "" "" st) →
      (step t w).2.live = w.live ∧
      (mutations (step t w).2.calls).length = (mutations w.calls).length) ∧
    ((step t w).1 ≠ none →
      (rejected (step t w).2.calls).length = (rejected w.calls).length →
      (step t w).2.live = w.live ∧
      ∀ (t2 : String) (w2 : World), w2.live = w.live →
        (step t2 w2).1 ≠ none ∧ (step t2 w2).2.live = w2.live ∧
        (mutations (step t2 w2).2.calls).length = (mutations w2.calls).length)

/-- A platform that holds the sample spec and rejects nothing. -/
def openPlatform : Platform where
  fetch _ := Except.ok sampleKog
  rejects _ _ := none
  endpointOf m := m.loadBalancerIP ++ ":51121"
  routerConfig := "router { mode: interior }"

/-- A platform that holds the sample spec and rejects every create. -/
def readOnlyPlatform : Platform :=
  { openPlatform with
    rejects := fun c _ =>
      match c with
      | Call.create _ _ => some (GoError.StatusError "Forbidden" "create is forbidden")
      | _ => none }

/-- An empty cluster. -/
def emptyWorld : World := { live := fun _ => none, apiEndpoint := "", calls := [] }

/-! ## The base64 decoder -/

theorem decodeQuantum.loop_four (src : List Byte) (si : Nat) (dbuf : List Nat) :
    decodeQuantum.loop src si 4 dbuf = decodeQuantum.finish dbuf 4 src si none := by
  cases src <;> simp [decodeQuantum.loop]

theorem Decode.loop_nil (fuel si : Nat) (dst : List Byte) :
    Decode.loop fuel [] si dst = (dst, none) := by
  cases fuel <;> rfl

theorem decodeQuantum.padded_stop (dbuf : List Nat) (j : Nat) (src : List Byte) (si : Nat)
    (he : (decodeQuantum.padded dbuf j src si).err = none) :
    (decodeQuantum.padded dbuf j src si).rest = [] := by
  rcases h : skipNewlines src si with ⟨_ | ⟨c, r⟩, n⟩ <;>
    simp [decodeQuantum.padded, h, decodeQuantum.finish] at he ⊢

/-- A quantum that stops at a character outside the alphabet without an error
has read the input to its end. -/
theorem decodeQuantum.loop_stop (c : Byte) (src : List Byte) (si j : Nat) (dbuf : List Nat)
    (hj : j < 4) (hc : ¬ decodeMap c ≠ 0xFF) (hn : ¬ (c = LF ∨ c = CR))
    (he : (decodeQuantum.loop (c :: src) si j dbuf).err = none) :
    (decodeQuantum.loop (c :: src) si j dbuf).rest = [] := by
  have h4 : ¬ 4 ≤ j := by omega
  simp only [decodeQuantum.loop, h4, hc, hn, if_false] at he ⊢
  by_cases hp : c ≠ StdPadding
  · simp [hp] at he
  by_cases h01 : j = 0 ∨ j = 1
  · simp [hp, h01] at he
  by_cases h2 : j = 2
  · simp only [hp, h01, h2, if_false, if_true] at he ⊢
    rcases h : skipNewlines src (si + 1) with ⟨_ | ⟨d, r⟩, n⟩
    · simp [h] at he
    · by_cases hd : d ≠ StdPadding
      · simp [h, hd] at he
      · simp only [h, hd, if_false] at he ⊢
        exact decodeQuantum.padded_stop _ _ _ _ he
  · simp only [hp, h01, h2, if_false] at he ⊢
    exact decodeQuantum.padded_stop _ _ _ _ he

theorem decodeQuantum.loop_alphabet (c : Byte) (src : List Byte) (si j : Nat) (dbuf : List Nat)
    (hj : j < 4) (hc : decodeMap c ≠ 0xFF) :
    decodeQuantum.loop (c :: src) si j dbuf
      = decodeQuantum.loop src (si + 1) (j + 1) (dbuf.set j (decodeMap c)) := by
  have h4 : ¬ 4 ≤ j := by omega
  rw [decodeQuantum.loop]
  simp [h4, hc]

theorem decodeQuantum.loop_newline (c : Byte) (src : List Byte) (si j : Nat) (dbuf : List Nat)
    (hj : j < 4) (hc : ¬ decodeMap c ≠ 0xFF) (hn : c = LF ∨ c = CR) :
    decodeQuantum.loop (c :: src) si j dbuf = decodeQuantum.loop src (si + 1) j dbuf := by
  have h4 : ¬ 4 ≤ j := by omega
  have hc2 : decodeMap c = 255 := by simpa using hc
  rw [decodeQuantum.loop]
  simp [h4, hc2, hn]

theorem decodeStream_alphabet (c : Byte) (src : List Byte) (si j : Nat) (dbuf : List Nat)
    (dst : List Byte) (hj : j ≠ 3) (hc : decodeMap c ≠ 0xFF) :
    decodeStream (c :: src) si j dbuf dst
      = decodeStream src (si + 1) (j + 1) (dbuf.set j (decodeMap c)) dst := by
  rw [decodeStream]
  simp [hj, hc]

theorem decodeStream_fourth (c : Byte) (src : List Byte) (si : Nat) (dbuf : List Nat)
    (dst : List Byte) (hc : decodeMap c ≠ 0xFF) :
    decodeStream (c :: src) si 3 dbuf dst
      = decodeStream src (si + 1) 0 [0, 0, 0, 0]
          (dst ++ (decodeQuantum.finish (dbuf.set 3 (decodeMap c)) 4 src (si + 1) none).out) := by
  rw [decodeStream]
  simp [hc]

theorem decodeStream_newline (c : Byte) (src : List Byte) (si j : Nat) (dbuf : List Nat)
    (dst : List Byte) (hc : ¬ decodeMap c ≠ 0xFF) (hn : c = LF ∨ c = CR) :
    decodeStream (c :: src) si j dbuf dst = decodeStream src (si + 1) j dbuf dst := by
  have hc2 : decodeMap c = 255 := by simpa using hc
  rw [decodeStream]
  simp [hc2, hn]

theorem decodeStream_stop (c : Byte) (src : List Byte) (si j : Nat) (dbuf : List Nat)
    (dst : List Byte) (hc : ¬ decodeMap c ≠ 0xFF) (hn : ¬ (c = LF ∨ c = CR)) :
    decodeStream (c :: src) si j dbuf dst
      = (dst ++ (decodeQuantum.loop (c :: src) si j dbuf).out,
          (decodeQuantum.loop (c :: src) si j dbuf).err) := by
  have hc2 : decodeMap c = 255 := by simpa using hc
  rw [decodeStream]
  simp only [hc2, hn, ne_eq, not_true_eq_false, if_false]

/-- The two nested loops of `Decode` are the one pass `decodeStream`: for the
outer loop with enough rounds left, and for the rest of a quantum entered at
index `j`. -/
theorem Decode.loop_eq_decodeStream (src : List Byte) :
    (∀ fuel si dst, src.length ≤ fuel →
      Decode.loop fuel src si dst = decodeStream src si 0 [0, 0, 0, 0] dst) ∧
    (∀ fuel si j dbuf dst, j < 4 → src.length ≤ fuel + 1 →
      (match (decodeQuantum.loop src si j dbuf).err with
        | some err => (dst ++ (decodeQuantum.loop src si j dbuf).out, some err)
        | none => Decode.loop fuel (decodeQuantum.loop src si j dbuf).rest
            (decodeQuantum.loop src si j dbuf).nsi (dst ++ (decodeQuantum.loop src si j dbuf).out))
        = decodeStream src si j dbuf dst) := by
  induction src with
  | nil =>
    refine ⟨fun fuel si dst _ => by simp [Decode.loop_nil, decodeStream], ?_⟩
    intro fuel si j dbuf dst hj _
    have h4 : ¬ 4 ≤ j := by omega
    by_cases h0 : j = 0 <;> simp [decodeQuantum.loop, decodeStream, h4, h0, Decode.loop_nil]
  | cons c t ih =>
    have part2 : ∀ fuel si j dbuf dst, j < 4 → (c :: t).length ≤ fuel + 1 →
        (match (decodeQuantum.loop (c :: t) si j dbuf).err with
          | some err => (dst ++ (decodeQuantum.loop (c :: t) si j dbuf).out, some err)
          | none => Decode.loop fuel (decodeQuantum.loop (c :: t) si j dbuf).rest
              (decodeQuantum.loop (c :: t) si j dbuf).nsi
              (dst ++ (decodeQuantum.loop (c :: t) si j dbuf).out))
          = decodeStream (c :: t) si j dbuf dst := by
      intro fuel si j dbuf dst hj hlen
      have hlen2 : t.length ≤ fuel := by simpa using hlen
      by_cases hc : decodeMap c ≠ 0xFF
      · rw [decodeQuantum.loop_alphabet c t si j dbuf hj hc]
        by_cases h3 : j = 3
        · subst h3
          rw [decodeStream_fourth c t si dbuf dst hc, decodeQuantum.loop_four]
          exact ih.1 fuel _ _ hlen2
        · rw [decodeStream_alphabet c t si j dbuf dst h3 hc]
          exact ih.2 fuel (si + 1) (j + 1) (dbuf.set j (decodeMap c)) dst (by omega) (by omega)
      · by_cases hn : c = LF ∨ c = CR
        · rw [decodeQuantum.loop_newline c t si j dbuf hj hc hn,
            decodeStream_newline c t si j dbuf dst hc hn]
          exact ih.2 fuel (si + 1) j dbuf dst hj (by omega)
        · have hstop := decodeQuantum.loop_stop c t si j dbuf hj hc hn
          rw [decodeStream_stop c t si j dbuf dst hc hn]
          rcases he : (decodeQuantum.loop (c :: t) si j dbuf).err with _ | err
          · simp [hstop he, Decode.loop_nil]
          · simp
    refine ⟨?_, part2⟩
    intro fuel si dst hlen
    cases fuel with
    | zero => simp at hlen
    | succ f =>
      have := part2 f si 0 [0, 0, 0, 0] dst (by omega) hlen
      simpa only [Decode.loop, decodeQuantum] using this

/-- The method `Decode` is the one pass from the start of the input. -/
theorem Decode_eq_decodeStream (src : List Byte) :
    Decode src = decodeStream src 0 0 [0, 0, 0, 0] [] := by
  unfold Decode
  split
  · rename_i h
    have : src = [] := List.length_eq_zero.mp h
    subst this
    rfl
  · exact (Decode.loop_eq_decodeStream src).1 _ _ _ (Nat.le_refl _)

/-- Every round of the outer loop of `Decode` reads at least one byte: with
`len(src)` rounds or more the result is the same. -/
theorem Decode.loop_fuel (fuel : Nat) (src : List Byte) (si : Nat) (dst : List Byte)
    (h : src.length ≤ fuel) :
    Decode.loop fuel src si dst = Decode.loop src.length src si dst := by
  rw [(Decode.loop_eq_decodeStream src).1 fuel si dst h,
    (Decode.loop_eq_decodeStream src).1 src.length si dst (Nat.le_refl _)]

/-! ### The alphabet -/

theorem encodeStd_length : encodeStd.length = 64 := by decide

theorem StdPadding_not_mem : StdPadding ∉ encodeStd := by decide

theorem LF_not_mem : LF ∉ encodeStd := by decide

theorem CR_not_mem : CR ∉ encodeStd := by decide

theorem decodeMap_of_mem {c : Byte} (h : c ∈ encodeStd) :
    decodeMap c = sextet c ∧ sextet c < 64 := by
  have hlt : encodeStd.indexOf c < 64 := by
    rw [← encodeStd_length]
    exact List.indexOf_lt_length.mpr h
  simp [decodeMap, sextet, hlt]

theorem decodeMap_ne_iff (c : Byte) : decodeMap c ≠ 0xFF ↔ c ∈ encodeStd := by
  constructor
  · intro h
    by_cases hlt : encodeStd.indexOf c < 64
    · rw [← encodeStd_length] at hlt
      exact List.indexOf_lt_length.mp hlt
    · simp [decodeMap, hlt] at h
  · intro h
    have := decodeMap_of_mem h
    omega

theorem decodeMap_stdChar_fin : ∀ v : Fin 64, decodeMap (stdChar v.val) = v.val := by decide

theorem decodeMap_stdChar {v : Nat} (h : v < 64) : decodeMap (stdChar v) = v :=
  decodeMap_stdChar_fin ⟨v, h⟩

theorem decodeMap_StdPadding : decodeMap StdPadding = 0xFF := by decide

theorem StdPadding_not_newline : ¬ (StdPadding = LF ∨ StdPadding = CR) := by decide

/-! ### Bits -/

theorem shiftLeft_or (a b i : Nat) (hb : b < 2 ^ i) : a <<< i ||| b = a * 2 ^ i + b := by
  rw [Nat.shiftLeft_eq, Nat.mul_comm, Nat.mul_add_lt_is_or hb]

theorem quantum_value (v0 v1 v2 v3 : Nat) (h1 : v1 < 64) (h2 : v2 < 64) (h3 : v3 < 64) :
    v0 <<< 18 ||| v1 <<< 12 ||| v2 <<< 6 ||| v3 = v0 * 262144 + v1 * 4096 + v2 * 64 + v3 := by
  have e1 : v0 <<< 18 ||| v1 <<< 12 = (v0 * 64 + v1) <<< 12 := by
    rw [shiftLeft_or _ _ _ (by rw [Nat.shiftLeft_eq]; omega)]
    simp only [Nat.shiftLeft_eq]
    omega
  have e2 : (v0 * 64 + v1) <<< 12 ||| v2 <<< 6 = ((v0 * 64 + v1) * 64 + v2) <<< 6 := by
    rw [shiftLeft_or _ _ _ (by rw [Nat.shiftLeft_eq]; omega)]
    simp only [Nat.shiftLeft_eq]
    omega
  rw [e1, e2, shiftLeft_or _ _ _ (by omega)]
  omega

theorem byte_eq_iff (m n : Nat) : byte m = byte n ↔ m % 256 = n % 256 := by
  simp [byte, Fin.ext_iff]

/-- The bytes `decodeQuantum` writes for a buffer of 6-bit values. -/
theorem decodeQuantum.finish_out (v0 v1 v2 v3 dlen : Nat) (src : List Byte) (si : Nat)
    (err : Option GoError) (h1 : v1 < 64) (h2 : v2 < 64) (h3 : v3 < 64) :
    (decodeQuantum.finish [v0, v1, v2, v3] dlen src si err).out
      = [byte (v0 * 4 + v1 / 16), byte (v1 % 16 * 16 + v2 / 4), byte (v2 % 4 * 64 + v3)].take
          (dlen - 1) := by
  simp only [decodeQuantum.finish, List.getD_cons_zero, List.getD_cons_succ]
  rw [quantum_value v0 v1 v2 v3 h1 h2 h3]
  have e1 : byte ((v0 * 262144 + v1 * 4096 + v2 * 64 + v3) >>> 16) = byte (v0 * 4 + v1 / 16) := by
    rw [byte_eq_iff, Nat.shiftRight_eq_div_pow]
    omega
  have e2 : byte ((v0 * 262144 + v1 * 4096 + v2 * 64 + v3) >>> 8)
      = byte (v1 % 16 * 16 + v2 / 4) := by
    rw [byte_eq_iff, Nat.shiftRight_eq_div_pow]
    omega
  have e3 : byte ((v0 * 262144 + v1 * 4096 + v2 * 64 + v3) >>> 0) = byte (v2 % 4 * 64 + v3) := by
    rw [byte_eq_iff, Nat.shiftRight_eq_div_pow]
    omega
  rw [e1, e2, e3]

/-- Four alphabet characters at the start of a quantum write three bytes. -/
theorem decodeStream_quantum (a b c d : Byte) (src : List Byte) (si : Nat) (dst : List Byte)
    (ha : a ∈ encodeStd) (hb : b ∈ encodeStd) (hc : c ∈ encodeStd) (hd : d ∈ encodeStd) :
    decodeStream (a :: b :: c :: d :: src) si 0 [0, 0, 0, 0] dst
      = decodeStream src (si + 4) 0 [0, 0, 0, 0]
          (dst ++ [byte (sextet a * 4 + sextet b / 16), byte (sextet b % 16 * 16 + sextet c / 4),
            byte (sextet c % 4 * 64 + sextet d)]) := by
  rw [decodeStream_alphabet a _ si 0 _ dst (by decide) ((decodeMap_ne_iff a).mpr ha),
    decodeStream_alphabet b _ _ 1 _ dst (by decide) ((decodeMap_ne_iff b).mpr hb),
    decodeStream_alphabet c _ _ 2 _ dst (by decide) ((decodeMap_ne_iff c).mpr hc),
    decodeStream_fourth d _ _ _ dst ((decodeMap_ne_iff d).mpr hd)]
  simp only [(decodeMap_of_mem ha).1, (decodeMap_of_mem hb).1, (decodeMap_of_mem hc).1,
    (decodeMap_of_mem hd).1, List.set_cons_zero, List.set_cons_succ]
  rw [decodeQuantum.finish_out _ _ _ _ _ _ _ _ (decodeMap_of_mem hb).2 (decodeMap_of_mem hc).2
    (decodeMap_of_mem hd).2]
  rfl

/-! ### Padding and newlines -/

theorem stripNewlines_cons_newline (c : Byte) (src : List Byte) (h : c = LF ∨ c = CR) :
    stripNewlines (c :: src) = stripNewlines src := by
  simp only [stripNewlines]
  rw [List.filter_cons_of_neg]
  simp only [decide_not, Bool.not_eq_true', decide_eq_false_iff_not, not_not]
  exact h

theorem stripNewlines_cons (c : Byte) (src : List Byte) (h : ¬ (c = LF ∨ c = CR)) :
    stripNewlines (c :: src) = c :: stripNewlines src := by
  simp only [stripNewlines]
  rw [List.filter_cons_of_pos]
  simpa using h

/-- After the newlines are skipped the input is at its end, or at the next
character that is not a newline. -/
theorem skipNewlines_cases (src : List Byte) (si : Nat) :
    ((skipNewlines src si).1 = [] ∧ stripNewlines src = []) ∨
    ∃ d r, (skipNewlines src si).1 = d :: r ∧ ¬ (d = LF ∨ d = CR) ∧
      stripNewlines src = d :: stripNewlines r := by
  induction src generalizing si with
  | nil => exact Or.inl ⟨rfl, rfl⟩
  | cons c t ih =>
    by_cases h : c = LF ∨ c = CR
    · rw [stripNewlines_cons_newline c t h]
      simpa only [skipNewlines, h, if_true] using ih (si + 1)
    · exact Or.inr ⟨c, t, by simp only [skipNewlines, h, if_false], h, stripNewlines_cons c t h⟩

/-- A padded quantum is free of error exactly when only newlines follow it,
and it writes `dlen - 1` bytes either way. -/
theorem decodeQuantum.padded_spec (dbuf : List Nat) (j : Nat) (src : List Byte) (si : Nat) :
    ((decodeQuantum.padded dbuf j src si).err = none ↔ stripNewlines src = []) ∧
    (decodeQuantum.padded dbuf j src si).out = (decodeQuantum.finish dbuf j [] 0 none).out := by
  rcases h : skipNewlines src si with ⟨l, n⟩
  rcases skipNewlines_cases src si with ⟨h1, h2⟩ | ⟨d, r, h1, _, h2⟩
  · rw [h] at h1
    subst h1
    simp [decodeQuantum.padded, h, h2, decodeQuantum.finish]
  · rw [h] at h1
    subst h1
    simp [decodeQuantum.padded, h, h2, decodeQuantum.finish]

/-- Padding in the fourth place of a quantum. -/
theorem decodeQuantum.loop_pad_three (src : List Byte) (si : Nat) (dbuf : List Nat) :
    ((decodeQuantum.loop (StdPadding :: src) si 3 dbuf).err = none ↔ stripNewlines src = []) ∧
    (decodeQuantum.loop (StdPadding :: src) si 3 dbuf).out
      = (decodeQuantum.finish dbuf 3 [] 0 none).out := by
  have h : decodeQuantum.loop (StdPadding :: src) si 3 dbuf
      = decodeQuantum.padded dbuf 3 src (si + 1) := by
    rw [decodeQuantum.loop]
    simp [decodeMap_StdPadding, StdPadding_not_newline]
  rw [h]
  exact decodeQuantum.padded_spec dbuf 3 src (si + 1)

/-- Padding in the third place of a quantum: a second padding character has to follow. -/
theorem decodeQuantum.loop_pad_two (src : List Byte) (si : Nat) (dbuf : List Nat) :
    ((decodeQuantum.loop (StdPadding :: src) si 2 dbuf).err = none
      ↔ stripNewlines src = [StdPadding]) ∧
    ((decodeQuantum.loop (StdPadding :: src) si 2 dbuf).err = none →
      (decodeQuantum.loop (StdPadding :: src) si 2 dbuf).out
        = (decodeQuantum.finish dbuf 2 [] 0 none).out) := by
  have h : decodeQuantum.loop (StdPadding :: src) si 2 dbuf
      = (match skipNewlines src (si + 1) with
        | ([], si) => ⟨[], si, [], some (GoError.CorruptInputError si)⟩
        | (d :: src, si) =>
          if d ≠ StdPadding then ⟨d :: src, si, [], some (GoError.CorruptInputError (si - 1))⟩
          else decodeQuantum.padded dbuf 2 src (si + 1)) := by
    rw [decodeQuantum.loop]
    simp [decodeMap_StdPadding, StdPadding_not_newline]
  rw [h]
  rcases hs : skipNewlines src (si + 1) with ⟨l, n⟩
  rcases skipNewlines_cases src (si + 1) with ⟨h1, h2⟩ | ⟨d, r, h1, _, h2⟩
  · rw [hs] at h1
    subst h1
    simp [h2]
  · rw [hs] at h1
    subst h1
    by_cases hd : d = StdPadding
    · subst hd
      have hp := decodeQuantum.padded_spec dbuf 2 r (n + 1)
      simp only [ne_eq, not_true_eq_false, if_false, h2, List.cons.injEq, true_and]
      exact ⟨hp.1, fun _ => hp.2⟩
    · simp [h2, hd]

/-- Padding in the first or second place of a quantum is an error. -/
theorem decodeQuantum.loop_pad_early (src : List Byte) (si j : Nat) (dbuf : List Nat)
    (hj : j = 0 ∨ j = 1) :
    (decodeQuantum.loop (StdPadding :: src) si j dbuf).err ≠ none := by
  have h4 : ¬ 4 ≤ j := by omega
  rw [decodeQuantum.loop]
  simp [decodeMap_StdPadding, StdPadding_not_newline, hj, h4]

/-- A character that is neither in the alphabet, nor a newline, nor padding is an error. -/
theorem decodeQuantum.loop_foreign (c : Byte) (src : List Byte) (si j : Nat) (dbuf : List Nat)
    (hj : j < 4) (hc : c ∉ encodeStd) (hn : ¬ (c = LF ∨ c = CR)) (hp : c ≠ StdPadding) :
    (decodeQuantum.loop (c :: src) si j dbuf).err ≠ none := by
  have h4 : ¬ 4 ≤ j := by omega
  have hc2 : decodeMap c = 255 := by
    have := (decodeMap_ne_iff c).not.mpr hc
    simpa using this
  rw [decodeQuantum.loop]
  simp [hc2, hn, hp, h4]

/-! ### Valid strings -/

theorem validStd_first {a : Byte} (l : List Byte) (ha : a ∉ encodeStd) :
    validStd (a :: l) = false := by
  match l with
  | [] => rfl
  | [_] => rfl
  | [_, _] => rfl
  | _ :: _ :: _ :: _ => simp [validStd, ha]

theorem validStd_second {b : Byte} (a : Byte) (l : List Byte) (hb : b ∉ encodeStd) :
    validStd (a :: b :: l) = false := by
  match l with
  | [] => rfl
  | [_] => rfl
  | _ :: _ :: _ => simp [validStd, hb]

theorem validStd_third {c : Byte} (a b : Byte) (l : List Byte) (hc : c ∉ encodeStd)
    (hp : c ≠ StdPadding) : validStd (a :: b :: c :: l) = false := by
  match l with
  | [] => rfl
  | _ :: _ => simp [validStd, hc, hp]

theorem validStd_fourth {d : Byte} (a b c : Byte) (l : List Byte) (hd : d ∉ encodeStd)
    (hp : d ≠ StdPadding) (hc : c ≠ StdPadding) : validStd (a :: b :: c :: d :: l) = false := by
  simp [validStd, hd, hp, hc]

theorem validStd_pad_two {a b : Byte} (l : List Byte) (ha : a ∈ encodeStd) (hb : b ∈ encodeStd) :
    validStd (a :: b :: StdPadding :: l) = true ↔ l = [StdPadding] := by
  match l with
  | [] => simp [validStd]
  | d :: rest =>
    simp only [validStd, ha, hb, decide_True, Bool.true_and, if_true, Bool.and_eq_true,
      decide_eq_true_eq, List.isEmpty_iff, List.cons.injEq]

theorem validStd_pad_three {a b c : Byte} (l : List Byte) (ha : a ∈ encodeStd)
    (hb : b ∈ encodeStd) (hc : c ∈ encodeStd) :
    validStd (a :: b :: c :: StdPadding :: l) = true ↔ l = [] := by
  have hcp : c ≠ StdPadding := fun h => StdPadding_not_mem (h ▸ hc)
  simp [validStd, ha, hb, hc, hcp]

theorem validStd_quantum {a b c d : Byte} (l : List Byte) (ha : a ∈ encodeStd)
    (hb : b ∈ encodeStd) (hc : c ∈ encodeStd) (hd : d ∈ encodeStd) :
    validStd (a :: b :: c :: d :: l) = validStd l := by
  have hcp : c ≠ StdPadding := fun h => StdPadding_not_mem (h ▸ hc)
  have hdp : d ≠ StdPadding := fun h => StdPadding_not_mem (h ▸ hd)
  simp [validStd, ha, hb, hc, hd, hcp, hdp]

theorem plaintext_quantum {c d : Byte} (a b : Byte) (l : List Byte) (hc : c ∈ encodeStd)
    (hd : d ∈ encodeStd) :
    plaintext (a :: b :: c :: d :: l)
      = byte (sextet a * 4 + sextet b / 16) :: byte (sextet b % 16 * 16 + sextet c / 4)
        :: byte (sextet c % 4 * 64 + sextet d) :: plaintext l := by
  have hcp : c ≠ StdPadding := fun h => StdPadding_not_mem (h ▸ hc)
  have hdp : d ≠ StdPadding := fun h => StdPadding_not_mem (h ▸ hd)
  simp [plaintext, hcp, hdp]

/-- A valid string has a length that is a multiple of four and holds only
alphabet and padding characters. -/
theorem validStd_shape : ∀ t : List Byte, validStd t = true →
    t.length % 4 = 0 ∧ ∀ x ∈ t, x ∈ encodeStd ∨ x = StdPadding
  | [] => fun _ => ⟨rfl, by simp⟩
  | [_] => fun h => by simp [validStd] at h
  | [_, _] => fun h => by simp [validStd] at h
  | [_, _, _] => fun h => by simp [validStd] at h
  | a :: b :: c :: d :: rest => fun h => by
    simp only [validStd, Bool.and_eq_true, decide_eq_true_eq] at h
    obtain ⟨⟨ha, hb⟩, h⟩ := h
    by_cases hc : c = StdPadding
    · simp only [hc, if_true, Bool.and_eq_true, decide_eq_true_eq, List.isEmpty_iff] at h
      obtain ⟨hd, hr⟩ := h
      subst hr
      simp [ha, hb, hc, hd]
    · simp only [hc, if_false, Bool.and_eq_true, decide_eq_true_eq] at h
      obtain ⟨hc2, h⟩ := h
      by_cases hd : d = StdPadding
      · simp only [hd, if_true, List.isEmpty_iff] at h
        subst h
        simp [ha, hb, hc2, hd]
      · simp only [hd, if_false, Bool.and_eq_true, decide_eq_true_eq] at h
        obtain ⟨hd2, hr⟩ := h
        obtain ⟨ih1, ih2⟩ := validStd_shape rest hr
        refine ⟨by simp only [List.length_cons]; omega, ?_⟩
        intro x hx
        simp only [List.mem_cons] at hx
        rcases hx with rfl | rfl | rfl | rfl | hx
        · exact Or.inl ha
        · exact Or.inl hb
        · exact Or.inl hc2
        · exact Or.inl hd2
        · exact ih2 x hx

theorem not_newline_of_mem {c : Byte} (hc : c ∈ encodeStd) : ¬ (c = LF ∨ c = CR) := by
  rintro (rfl | rfl)
  · exact LF_not_mem hc
  · exact CR_not_mem hc

/-- The one pass decodes as the standard encoding prescribes for the input
without its newlines, whatever part of a quantum has been read already. -/
theorem decodeStream_spec (src : List Byte) :
    (∀ si dst, decodesAs (decodeStream src si 0 [0, 0, 0, 0] dst) dst (stripNewlines src)) ∧
    (∀ a si dst, a ∈ encodeStd →
      decodesAs (decodeStream src si 1 [sextet a, 0, 0, 0] dst) dst (a :: stripNewlines src)) ∧
    (∀ a b si dst, a ∈ encodeStd → b ∈ encodeStd →
      decodesAs (decodeStream src si 2 [sextet a, sextet b, 0, 0] dst) dst
        (a :: b :: stripNewlines src)) ∧
    (∀ a b c si dst, a ∈ encodeStd → b ∈ encodeStd → c ∈ encodeStd →
      decodesAs (decodeStream src si 3 [sextet a, sextet b, sextet c, 0] dst) dst
        (a :: b :: c :: stripNewlines src)) := by
  induction src with
  | nil =>
    refine ⟨?_, ?_, ?_, ?_⟩ <;> intros <;>
      simp [decodesAs, decodeStream, stripNewlines, validStd, plaintext]
  | cons c t ih =>
    obtain ⟨ih0, ih1, ih2, ih3⟩ := ih
    by_cases hc : c ∈ encodeStd
    · have hm := (decodeMap_ne_iff c).mpr hc
      have hs := (decodeMap_of_mem hc).1
      rw [stripNewlines_cons c t (not_newline_of_mem hc)]
      refine ⟨?_, ?_, ?_, ?_⟩
      · intro si dst
        rw [decodeStream_alphabet c t si 0 _ dst (by decide) hm, hs]
        exact ih1 c _ dst hc
      · intro a si dst ha
        rw [decodeStream_alphabet c t si 1 _ dst (by decide) hm, hs]
        exact ih2 a c _ dst ha hc
      · intro a b si dst ha hb
        rw [decodeStream_alphabet c t si 2 _ dst (by decide) hm, hs]
        exact ih3 a b c _ dst ha hb hc
      · intro a b c3 si dst ha hb hc3
        rw [decodeStream_fourth c t si _ dst hm, hs]
        simp only [List.set_cons_zero, List.set_cons_succ]
        rw [decodeQuantum.finish_out _ _ _ _ _ _ _ _ (decodeMap_of_mem hb).2
          (decodeMap_of_mem hc3).2 (decodeMap_of_mem hc).2]
        have := ih0 (si + 1) (dst ++ [byte (sextet a * 4 + sextet b / 16),
          byte (sextet b % 16 * 16 + sextet c3 / 4), byte (sextet c3 % 4 * 64 + sextet c)])
        simp only [decodesAs, validStd_quantum _ ha hb hc3 hc, plaintext_quantum a b _ hc3 hc]
          at this ⊢
        simpa using this
    · have hm : ¬ decodeMap c ≠ 0xFF := (decodeMap_ne_iff c).not.mpr hc
      by_cases hn : c = LF ∨ c = CR
      · rw [stripNewlines_cons_newline c t hn]
        refine ⟨?_, ?_, ?_, ?_⟩
        · intro si dst
          rw [decodeStream_newline c t si 0 _ dst hm hn]
          exact ih0 _ dst
        · intro a si dst ha
          rw [decodeStream_newline c t si 1 _ dst hm hn]
          exact ih1 a _ dst ha
        · intro a b si dst ha hb
          rw [decodeStream_newline c t si 2 _ dst hm hn]
          exact ih2 a b _ dst ha hb
        · intro a b c3 si dst ha hb hc3
          rw [decodeStream_newline c t si 3 _ dst hm hn]
          exact ih3 a b c3 _ dst ha hb hc3
      · rw [stripNewlines_cons c t hn]
        by_cases hp : c = StdPadding
        · subst hp
          refine ⟨?_, ?_, ?_, ?_⟩
          · intro si dst
            rw [decodeStream_stop _ t si 0 _ dst hm hn]
            have := decodeQuantum.loop_pad_early t si 0 [0, 0, 0, 0] (Or.inl rfl)
            simp [decodesAs, validStd_first _ hc, this]
          · intro a si dst ha
            rw [decodeStream_stop _ t si 1 _ dst hm hn]
            have := decodeQuantum.loop_pad_early t si 1 [sextet a, 0, 0, 0] (Or.inr rfl)
            simp [decodesAs, validStd_second _ _ hc, this]
          · intro a b si dst ha hb
            rw [decodeStream_stop _ t si 2 _ dst hm hn]
            have h2 := decodeQuantum.loop_pad_two t si [sextet a, sextet b, 0, 0]
            rw [decodeQuantum.finish_out _ _ _ _ _ _ _ _ (decodeMap_of_mem hb).2 (by decide)
              (by decide)] at h2
            simp only [decodesAs, validStd_pad_two _ ha hb]
            refine ⟨h2.1, fun hv => ?_⟩
            rw [h2.2 (h2.1.mpr hv), hv]
            simp [plaintext]
          · intro a b c3 si dst ha hb hc3
            rw [decodeStream_stop _ t si 3 _ dst hm hn]
            have h3 := decodeQuantum.loop_pad_three t si [sextet a, sextet b, sextet c3, 0]
            rw [decodeQuantum.finish_out _ _ _ _ _ _ _ _ (decodeMap_of_mem hb).2
              (decodeMap_of_mem hc3).2 (by decide)] at h3
            have hcp : c3 ≠ StdPadding := fun h => StdPadding_not_mem (h ▸ hc3)
            simp only [decodesAs, validStd_pad_three _ ha hb hc3]
            refine ⟨h3.1, fun hv => ?_⟩
            rw [h3.2, hv]
            simp [plaintext, hcp]
        · refine ⟨?_, ?_, ?_, ?_⟩
          · intro si dst
            rw [decodeStream_stop _ t si 0 _ dst hm hn]
            have := decodeQuantum.loop_foreign c t si 0 [0, 0, 0, 0] (by decide) hc hn hp
            simp [decodesAs, validStd_first _ hc, this]
          · intro a si dst ha
            rw [decodeStream_stop _ t si 1 _ dst hm hn]
            have := decodeQuantum.loop_foreign c t si 1 [sextet a, 0, 0, 0] (by decide) hc hn hp
            simp [decodesAs, validStd_second _ _ hc, this]
          · intro a b si dst ha hb
            rw [decodeStream_stop _ t si 2 _ dst hm hn]
            have := decodeQuantum.loop_foreign c t si 2 [sextet a, sextet b, 0, 0] (by decide)
              hc hn hp
            simp [decodesAs, validStd_third _ _ _ hc hp, this]
          · intro a b c3 si dst ha hb hc3
            rw [decodeStream_stop _ t si 3 _ dst hm hn]
            have := decodeQuantum.loop_foreign c t si 3 [sextet a, sextet b, sextet c3, 0]
              (by decide) hc hn hp
            have hcp : c3 ≠ StdPadding := fun h => StdPadding_not_mem (h ▸ hc3)
            simp [decodesAs, validStd_fourth _ _ _ _ hc hp hcp, this]

/-! ### The encoder against the valid strings -/

theorem stdChar_mem {v : Nat} (h : v < 64) : stdChar v ∈ encodeStd :=
  (decodeMap_ne_iff (stdChar v)).mp (by rw [decodeMap_stdChar h]; omega)

theorem sextet_stdChar {v : Nat} (h : v < 64) : sextet (stdChar v) = v := by
  rw [← (decodeMap_of_mem (stdChar_mem h)).1, decodeMap_stdChar h]

theorem byte_val (b : Byte) (n : Nat) (h : n % 256 = b.val) : byte n = b :=
  Fin.ext h

theorem stripNewlines_nil : stripNewlines [] = [] := rfl

theorem stripNewlines_StdPadding (l : List Byte) :
    stripNewlines (StdPadding :: l) = StdPadding :: stripNewlines l :=
  stripNewlines_cons _ _ StdPadding_not_newline

theorem stripNewlines_stdChar {v : Nat} (l : List Byte) (h : v < 64) :
    stripNewlines (stdChar v :: l) = stdChar v :: stripNewlines l :=
  stripNewlines_cons _ _ (not_newline_of_mem (stdChar_mem h))

/-- The encoder writes no newline, writes a valid string, and the plaintext of
what it writes is its input. -/
theorem EncodeToString_spec : ∀ p : List Byte,
    stripNewlines (EncodeToString p) = EncodeToString p ∧
    validStd (EncodeToString p) = true ∧
    plaintext (EncodeToString p) = p
  | [] => ⟨rfl, rfl, rfl⟩
  | [b0] => by
    have h0 : b0.val * 65536 / 262144 % 64 < 64 := by omega
    have h1 : b0.val * 65536 / 4096 % 64 < 64 := by omega
    have hb := b0.isLt
    refine ⟨?_, ?_, ?_⟩
    · simp only [EncodeToString, stripNewlines_stdChar _ h0, stripNewlines_stdChar _ h1,
        stripNewlines_StdPadding, stripNewlines_nil]
    · simp only [EncodeToString]
      exact (validStd_pad_two _ (stdChar_mem h0) (stdChar_mem h1)).mpr rfl
    · simp only [EncodeToString, plaintext, if_true, sextet_stdChar h0, sextet_stdChar h1,
        List.cons.injEq, and_true]
      exact byte_val _ _ (by omega)
  | [b0, b1] => by
    have h0 : (b0.val * 65536 + b1.val * 256) / 262144 % 64 < 64 := by omega
    have h1 : (b0.val * 65536 + b1.val * 256) / 4096 % 64 < 64 := by omega
    have h2 : (b0.val * 65536 + b1.val * 256) / 64 % 64 < 64 := by omega
    have hb0 := b0.isLt
    have hb1 := b1.isLt
    have hcp : stdChar ((b0.val * 65536 + b1.val * 256) / 64 % 64) ≠ StdPadding :=
      fun h => StdPadding_not_mem (h ▸ stdChar_mem h2)
    refine ⟨?_, ?_, ?_⟩
    · simp only [EncodeToString, stripNewlines_stdChar _ h0, stripNewlines_stdChar _ h1,
        stripNewlines_stdChar _ h2, stripNewlines_StdPadding, stripNewlines_nil]
    · simp only [EncodeToString]
      exact (validStd_pad_three _ (stdChar_mem h0) (stdChar_mem h1) (stdChar_mem h2)).mpr rfl
    · simp only [EncodeToString, plaintext, hcp, if_false, if_true, sextet_stdChar h0,
        sextet_stdChar h1, sextet_stdChar h2, List.cons.injEq, and_true]
      exact ⟨byte_val _ _ (by omega), byte_val _ _ (by omega)⟩
  | b0 :: b1 :: b2 :: rest => by
    obtain ⟨ih1, ih2, ih3⟩ := EncodeToString_spec rest
    have h0 : (b0.val * 65536 + b1.val * 256 + b2.val) / 262144 % 64 < 64 := by omega
    have h1 : (b0.val * 65536 + b1.val * 256 + b2.val) / 4096 % 64 < 64 := by omega
    have h2 : (b0.val * 65536 + b1.val * 256 + b2.val) / 64 % 64 < 64 := by omega
    have h3 : (b0.val * 65536 + b1.val * 256 + b2.val) % 64 < 64 := by omega
    have hb0 := b0.isLt
    have hb1 := b1.isLt
    have hb2 := b2.isLt
    refine ⟨?_, ?_, ?_⟩
    · simp only [EncodeToString, stripNewlines_stdChar _ h0, stripNewlines_stdChar _ h1,
        stripNewlines_stdChar _ h2, stripNewlines_stdChar _ h3, ih1]
    · simp only [EncodeToString]
      rw [validStd_quantum _ (stdChar_mem h0) (stdChar_mem h1) (stdChar_mem h2) (stdChar_mem h3)]
      exact ih2
    · simp only [EncodeToString]
      rw [plaintext_quantum _ _ _ (stdChar_mem h2) (stdChar_mem h3), ih3]
      simp only [sextet_stdChar h0, sextet_stdChar h1, sextet_stdChar h2, sextet_stdChar h3,
        List.cons.injEq, and_true]
      exact ⟨byte_val _ _ (by omega), byte_val _ _ (by omega), byte_val _ _ (by omega)⟩

/-- The method `DecodeString` decodes as the standard encoding prescribes for
the input without its newlines. -/
theorem DecodeString_spec (s : List Byte) :
    decodesAs (DecodeString s) [] (stripNewlines s) := by
  rw [DecodeString, Decode_eq_decodeStream]
  exact (decodeStream_spec s).1 0 []

/-- An input that, without its newlines, is not a valid string is rejected. -/
theorem decode_invalid (s : List Byte) (h : validStd (stripNewlines s) = false) :
    (decode s).2 ≠ none ∧ (decode s).1 = [] := by
  obtain ⟨hv, _⟩ := DecodeString_spec s
  rcases hd : DecodeString s with ⟨bytes, err⟩
  rw [hd] at hv
  cases err with
  | none =>
    rw [hv.mp rfl] at h
    cases h
  | some e => simp [decode, hd]

/-! ## The credential decoder -/

/-- C5. The decoder applied to the standard padded base64 encoding of any byte
string `p` returns `p` and a nil error. -/
theorem decode_EncodeToString (p : List Byte) : decode (EncodeToString p) = (p, none) := by
  obtain ⟨h1, h2, h3⟩ := EncodeToString_spec p
  obtain ⟨hv, hp⟩ := DecodeString_spec (EncodeToString p)
  rw [h1] at hv hp
  have he := hv.mpr h2
  have hb := hp h2
  rw [h3, List.nil_append] at hb
  rcases hd : DecodeString (EncodeToString p) with ⟨bytes, err⟩
  rw [hd] at he hb
  simp only at he hb
  subst he hb
  simp [decode, hd]

/-- C6, the claim as stated fails: the five bytes `QQ==` and a line feed are not
a valid standard base64 string (the line feed is outside the alphabet and the
length is no multiple of four), and `decode` returns `A` with a nil error. -/
theorem decode_accepts_line_feed :
    LF ∈ ascii "QQ==\n" ∧ LF ∉ encodeStd ∧ (ascii "QQ==\n").length % 4 ≠ 0 ∧
    validStd (ascii "QQ==\n") = false ∧
    decode (ascii "QQ==\n") = (ascii "A", none) := by
  decide

/-- C6, amended. With `t` the input without its carriage returns and line feeds:
`decode` returns a non-nil error and the empty string if `t` is not a valid
standard base64 string, and a nil error with the plaintext of `t` if it is. -/
theorem decode_valid_iff (s : List Byte) :
    (validStd (stripNewlines s) = false → (decode s).2 ≠ none ∧ (decode s).1 = []) ∧
    (validStd (stripNewlines s) = true → decode s = (plaintext (stripNewlines s), none)) := by
  obtain ⟨hv, hp⟩ := DecodeString_spec s
  rcases hd : DecodeString s with ⟨bytes, err⟩
  rw [hd] at hv hp
  simp only at hv hp
  constructor
  · intro h
    cases err with
    | none => rw [hv.mp rfl] at h; cases h
    | some e => simp [decode, hd]
  · intro h
    have he := hv.mpr h
    have hb := hp h
    subst he
    simp [decode, hd, hb]

/-! ## The orchestrator -/

theorem stagesBefore_controller : stagesBefore Stage.controller = [] := by decide

theorem stagesBefore_kubelet : stagesBefore Stage.kubelet = [Stage.controller] := by decide

theorem stagesBefore_portManager :
    stagesBefore Stage.portManager = [Stage.controller, Stage.kubelet] := by decide

theorem stagesBefore_skupper :
    stagesBefore Stage.skupper = [Stage.controller, Stage.kubelet, Stage.portManager] := by decide

/-- C1. With the spec fetched and the password decoded, if stage `st` is the
first to return an error `e` (every stage before it returned nil when its turn
came), `Reconcile` returns the empty result with exactly `e`, the stages invoked
are those up to and including `st` and the state is the one `st` left; and a
nil error from `Reconcile` means every stage returned nil. -/
theorem Reconcile_short_circuits {σ : Type} (r : ReconcileKog σ) (request : reconcile.Request)
    (s s1 : σ) (kog : iofogv1.Kog) (password : List Byte)
    (hget : r.clientGet request s = (Except.ok kog, s1))
    (hdec : decode kog.Spec.ControlPlane.IofogUser.Password = (password, none)) :
    (∀ (st : Stage) (e : GoError),
      (∀ st2 ∈ stagesBefore st, (outcomeAt r (setPassword kog password) s1 st2).1 = none) →
      (outcomeAt r (setPassword kog password) s1 st).1 = some e →
      (Reconcile r request s).result = {} ∧
      (Reconcile r request s).err = some e ∧
      stagesInvoked (Reconcile r request s).trace = stagesBefore st ++ [st] ∧
      (Reconcile r request s).state = (outcomeAt r (setPassword kog password) s1 st).2.2) ∧
    ((Reconcile r request s).err = none →
      ∀ st : Stage, (outcomeAt r (setPassword kog password) s1 st).1 = none) := by
  rcases h0 : r.reconcileIofogController (setPassword kog password) s1 with ⟨e0, k1, s2⟩
  rcases h1 : r.reconcileIofogKubelet k1 s2 with ⟨e1, k2, s3⟩
  rcases h2 : r.reconcilePortManager k2 s3 with ⟨e2, k3, s4⟩
  rcases h3 : r.reconcileSkupper k3 s4 with ⟨e3, k4, s5⟩
  constructor
  · intro st e hbefore hst
    cases st <;>
      simp only [stagesBefore_controller, stagesBefore_kubelet, stagesBefore_portManager,
        stagesBefore_skupper, outcomeAt, ReconcileKog.run, stateAfter, List.mem_cons,
        List.mem_singleton, forall_eq_or_imp, forall_eq, h0, h1, h2, h3, List.not_mem_nil,
        false_implies, implies_true, and_true] at hbefore hst ⊢
    · subst hst
      simp [Reconcile, hget, hdec, h0, stagesInvoked, stageCalls]
    · obtain ⟨rfl, rfl⟩ := And.intro hbefore hst
      simp [Reconcile, hget, hdec, h0, h1, stagesInvoked, stageCalls]
    · obtain ⟨⟨rfl, rfl⟩, rfl⟩ := And.intro hbefore hst
      simp [Reconcile, hget, hdec, h0, h1, h2, stagesInvoked, stageCalls]
    · obtain ⟨⟨rfl, rfl, rfl⟩, rfl⟩ := And.intro hbefore hst
      simp [Reconcile, hget, hdec, h0, h1, h2, h3, stagesInvoked, stageCalls]
  · intro hnil st
    cases e0 <;> cases e1 <;> cases e2 <;> cases e3 <;>
      simp [Reconcile, hget, hdec, h0, h1, h2, h3] at hnil
    cases st <;>
      simp [stagesBefore_controller, stagesBefore_kubelet, stagesBefore_portManager,
        stagesBefore_skupper, outcomeAt, ReconcileKog.run, stateAfter, h0, h1, h2, h3]

/-- Witness of C1: the kubelet stage fails after the controller stage succeeded. -/
theorem Reconcile_short_circuits_witness :
    (Reconcile (journal (some sampleKog) (some Stage.kubelet)) {} []).err
        = some (errors.New "kubelet") ∧
      stagesInvoked (Reconcile (journal (some sampleKog) (some Stage.kubelet)) {} []).trace
        = [Stage.controller, Stage.kubelet] ∧
      (Reconcile (journal (some sampleKog) (some Stage.kubelet)) {} []).state
        = [Stage.controller, Stage.kubelet] :=
  have h := (Reconcile_short_circuits (journal (some sampleKog) (some Stage.kubelet)) {} [] []
    sampleKog (ascii "pass") rfl (by decide)).1 Stage.kubelet (errors.New "kubelet")
    (by decide) (by decide)
  ⟨h.2.1, h.2.2.1, h.2.2.2⟩

/-- C2. In every pass, over any reconciler `r`: the calls its four methods
really receive (each noted by the method that received it) are a prefix of the
fixed order with no stage twice; a call of the kubelet method comes directly
after the call of the controller method, which returned nil; the pass under
observation leaves the state and returns the error of the pass over `r`; and the
trace of the pass lists exactly these calls with the errors they returned. -/
theorem Reconcile_invokes_prefix {σ : Type} (r : ReconcileKog σ) (request : reconcile.Request)
    (s : σ) :
    (received r request s).map Received.stage <+: reconcilerOrder ∧
    ((received r request s).map Received.stage).Nodup ∧
    (∀ c ∈ received r request s, c.stage = Stage.kubelet →
      ∃ k rest, received r request s = ⟨Stage.controller, k, none⟩ :: c :: rest) ∧
    (Reconcile (spy r) request (s, [])).state.1 = (Reconcile r request s).state ∧
    (Reconcile (spy r) request (s, [])).err = (Reconcile r request s).err ∧
    stageCalls (Reconcile r request s).trace
      = (received r request s).map fun c => (c.stage, c.err) := by
  rcases hget : r.clientGet request s with ⟨_ | kog, s1⟩
  · rename_i err
    cases hnf : IsNotFound err <;>
      simp [received, spy, Reconcile, hget, hnf, stageCalls, reconcilerOrder]
  rcases hdec : decode kog.Spec.ControlPlane.IofogUser.Password with ⟨password, _ | _⟩
  swap
  · simp [received, spy, Reconcile, hget, hdec, stageCalls, reconcilerOrder]
  rcases h0 : r.reconcileIofogController (setPassword kog password) s1 with ⟨_ | _, k1, s2⟩
  swap
  · simp [received, spy, Reconcile, hget, hdec, h0, stageCalls, reconcilerOrder]
  rcases h1 : r.reconcileIofogKubelet k1 s2 with ⟨_ | _, k2, s3⟩
  swap
  · simp [received, spy, Reconcile, hget, hdec, h0, h1, stageCalls, reconcilerOrder]
  rcases h2 : r.reconcilePortManager k2 s3 with ⟨_ | _, k3, s4⟩
  swap
  · simp [received, spy, Reconcile, hget, hdec, h0, h1, h2, stageCalls, reconcilerOrder]
  rcases h3 : r.reconcileSkupper k3 s4 with ⟨_ | _, k4, s5⟩ <;>
    simp [received, spy, Reconcile, hget, hdec, h0, h1, h2, h3, stageCalls, reconcilerOrder]

/-- C3, the claim as stated fails: the password `cGFz`, line feed, `cw==`, line
feed is not a valid base64 string (it holds a byte outside the alphabet and its
length is no multiple of four), yet `decode` returns `pass` with a nil error,
`Reconcile` returns nil and all four component reconcilers are called, in
order. -/
theorem Reconcile_accepts_wrapped_password :
    LF ∈ ascii "cGFz\ncw==\n" ∧ LF ∉ encodeStd ∧ (ascii "cGFz\ncw==\n").length % 4 ≠ 0 ∧
    validStd (ascii "cGFz\ncw==\n") = false ∧
    wrappedKog.Spec.ControlPlane.IofogUser.Password = ascii "cGFz\ncw==\n" ∧
    decode (ascii "cGFz\ncw==\n") = (ascii "pass", none) ∧
    (Reconcile (journal (some wrappedKog) none) {} []).err = none ∧
    (Reconcile (journal (some wrappedKog) none) {} []).state = reconcilerOrder ∧
    (received (journal (some wrappedKog) none) {} []).map Received.stage = reconcilerOrder := by
  decide

/-- C3, amended. A fetched password that, with its carriage returns and line
feeds removed, is not valid base64 makes `decode` return an error; and whenever
`decode` returns an error `Reconcile` returns that error with the empty result,
none of the four reconciler methods receives a call, and the state is as the
fetch left it. -/
theorem Reconcile_decode_error {σ : Type} (r : ReconcileKog σ) (request : reconcile.Request)
    (s s1 : σ) (kog : iofogv1.Kog)
    (hget : r.clientGet request s = (Except.ok kog, s1)) :
    (validStd (stripNewlines kog.Spec.ControlPlane.IofogUser.Password) = false →
      (decode kog.Spec.ControlPlane.IofogUser.Password).2 ≠ none) ∧
    ∀ err : GoError, (decode kog.Spec.ControlPlane.IofogUser.Password).2 = some err →
      (Reconcile r request s).err = some err ∧
      (Reconcile r request s).result = {} ∧
      stagesInvoked (Reconcile r request s).trace = [] ∧
      received r request s = [] ∧
      (Reconcile r request s).state = s1 := by
  refine ⟨fun h => (decode_invalid _ h).1, ?_⟩
  intro err hdec
  rcases hd : decode kog.Spec.ControlPlane.IofogUser.Password with ⟨password, e⟩
  rw [hd] at hdec
  subst hdec
  simp [received, spy, Reconcile, hget, hd, stagesInvoked, stageCalls]

/-- Witness of C3: the password `pa$$` is rejected by the decoder. -/
theorem Reconcile_decode_error_witness :
    (Reconcile (journal (some brokenKog) none) {} []).err
        = some (GoError.CorruptInputError 2) ∧
      (Reconcile (journal (some brokenKog) none) {} []).result = {} ∧
      stagesInvoked (Reconcile (journal (some brokenKog) none) {} []).trace = [] ∧
      received (journal (some brokenKog) none) {} [] = [] ∧
      (Reconcile (journal (some brokenKog) none) {} []).state = [] :=
  (Reconcile_decode_error (journal (some brokenKog) none) {} [] [] brokenKog rfl).2
    (GoError.CorruptInputError 2) (by decide)

/-- C4. When the fetch fails, no credential is decoded and no component
reconciler is invoked; a not-found error gives the empty result and a nil error,
any other error is returned unchanged. -/
theorem Reconcile_fetch_error {σ : Type} (r : ReconcileKog σ) (request : reconcile.Request)
    (s s1 : σ) (err : GoError)
    (hget : r.clientGet request s = (Except.error err, s1)) :
    (Reconcile r request s).result = {} ∧
    (Reconcile r request s).err = (if IsNotFound err then none else some err) ∧
    decodeCalls (Reconcile r request s).trace = [] ∧
    stagesInvoked (Reconcile r request s).trace = [] ∧
    (Reconcile r request s).state = s1 := by
  cases hnf : IsNotFound err <;>
    simp [Reconcile, hget, hnf, stagesInvoked, stageCalls, decodeCalls]

/-- Witness of C4: the spec was deleted before the fetch (a clean no-op), and a
fetch that timed out (the error comes back as it is). -/
theorem Reconcile_fetch_error_witness :
    ((Reconcile (journal none none) {} []).result = {} ∧
      (Reconcile (journal none none) {} []).err = none ∧
      decodeCalls (Reconcile (journal none none) {} []).trace = [] ∧
      stagesInvoked (Reconcile (journal none none) {} []).trace = [] ∧
      (Reconcile (journal none none) {} []).state = []) ∧
    ((Reconcile unreachable {} []).result = {} ∧
      (Reconcile unreachable {} []).err
        = some (GoError.StatusError "Timeout" "request timed out") ∧
      decodeCalls (Reconcile unreachable {} []).trace = [] ∧
      stagesInvoked (Reconcile unreachable {} []).trace = [] ∧
      (Reconcile unreachable {} []).state = []) :=
  ⟨Reconcile_fetch_error (journal none none) {} [] []
      (GoError.StatusError "NotFound" "kogs.k8s.iofog.org not found") rfl,
    Reconcile_fetch_error unreachable {} [] []
      (GoError.StatusError "Timeout" "request timed out") rfl⟩

/-! ## The agent-bridge token -/

/-- C7. For a live container list of exactly one container with exactly six
arguments, `getKubeletToken` returns the argument at index 3 and a nil error. -/
theorem getKubeletToken_six_args (c : corev1.Container) (h : c.Args.length = 6) :
    getKubeletToken [c] = some (c.Args.get ⟨3, by omega⟩, none) := by
  have h3 : c.Args[3]? = some (c.Args.get ⟨3, by omega⟩) := by
    simp [List.getElem?_eq_getElem, h]
  simp [getKubeletToken, h, h3]

/-- Witness of C7: the token `TOK123` is read back from the argument vector. -/
theorem getKubeletToken_six_args_witness :
    getKubeletToken
        [{ Args := ["--namespace", "ns1", "--iofog-token", "TOK123", "--iofog-url", "http://ep"] }]
      = some ("TOK123", none) :=
  getKubeletToken_six_args
    { Args := ["--namespace", "ns1", "--iofog-token", "TOK123", "--iofog-url", "http://ep"] } rfl

/-- C8. On every list of live containers `getKubeletToken` returns (it never
indexes out of range), and it returns a non-nil error with an empty token exactly
when the list is not a single container or that container has not six arguments. -/
theorem getKubeletToken_rejects_malformed (containers : List corev1.Container) :
    ∃ token err, getKubeletToken containers = some (token, err) ∧
      ((err ≠ none ∧ token = "") ↔
        (containers.length ≠ 1 ∨ ∃ c, containers = [c] ∧ c.Args.length ≠ 6)) := by
  match containers with
  | [] => exact ⟨_, _, rfl, by simp⟩
  | _ :: _ :: _ => exact ⟨_, _, rfl, by simp⟩
  | [c] =>
    by_cases h : c.Args.length = 6
    · have h3 : c.Args[3]? = some (c.Args.get ⟨3, by omega⟩) := by
        simp [List.getElem?_eq_getElem, h]
      exact ⟨c.Args.get ⟨3, by omega⟩, none, by simp [getKubeletToken, h, h3], by simp [h]⟩
    · exact ⟨"", some (errors.New
        ("Expected 6 args in Kubelet deployment config. Found " ++ toString c.Args.length)),
        by simp [getKubeletToken, h], by simp [h]⟩

/-! ## The coordinator bundle -/

/-- C9. The coordinator bundle has one replica when zero are requested, the
requested count when it is positive, and never zero replicas. -/
theorem newControllerMicroservice_replicas (replicas : Int) (image imagePullSecret : String)
    (db : iofogv1.Database) (svcType loadBalancerIP : String) :
    (newControllerMicroservice 0 image imagePullSecret db svcType loadBalancerIP).replicas = 1 ∧
    (0 < replicas →
      (newControllerMicroservice replicas image imagePullSecret db svcType loadBalancerIP).replicas
        = replicas) ∧
    (newControllerMicroservice replicas image imagePullSecret db svcType loadBalancerIP).replicas
      ≠ 0 := by
  refine ⟨rfl, ?_, ?_⟩
  · intro h
    have : replicas ≠ 0 := by omega
    simp [newControllerMicroservice, this]
  · by_cases h : replicas = 0 <;> simp [newControllerMicroservice, h]

/-- C10. `getTrafficPolicy` is `Local` on `LoadBalancer` and `Cluster` on every
other string, the empty string and other spellings included, and the coordinator
bundle carries the policy of the exposure type it was built with. -/
theorem getTrafficPolicy_mapping :
    getTrafficPolicy "LoadBalancer" = "Local" ∧
    (∀ s : String, s ≠ "LoadBalancer" → getTrafficPolicy s = "Cluster") ∧
    getTrafficPolicy "" = "Cluster" ∧
    getTrafficPolicy "loadbalancer" = "Cluster" ∧
    getTrafficPolicy "LOADBALANCER" = "Cluster" ∧
    ∀ (replicas : Int) (image imagePullSecret : String) (db : iofogv1.Database)
      (svcType loadBalancerIP : String),
      (newControllerMicroservice replicas image imagePullSecret db svcType loadBalancerIP).serviceType
        = svcType ∧
      (newControllerMicroservice replicas image imagePullSecret db svcType loadBalancerIP).trafficPolicy
        = getTrafficPolicy svcType := by
  refine ⟨by decide, ?_, by decide, by decide, by decide, ?_⟩
  · intro s h
    simp [getTrafficPolicy, corev1.ServiceTypeLoadBalancer,
      corev1.ServiceExternalTrafficPolicyTypeCluster, h]
  · intro replicas image imagePullSecret db svcType loadBalancerIP
    exact ⟨rfl, rfl⟩

/-! ## The agent-bridge bundle -/

/-- C11. The agent-bridge bundle is named `kubelet`, has one replica, the single
port 60000 and a single container whose arguments are, in order, the namespace
flag and value, the token flag and value, and the URL flag with `http://`
followed by the endpoint. -/
theorem newKubeletMicroservice_bundle (image namespace_ token controllerEndpoint : String) :
    (newKubeletMicroservice image namespace_ token controllerEndpoint).name = "kubelet" ∧
    (newKubeletMicroservice image namespace_ token controllerEndpoint).replicas = 1 ∧
    (newKubeletMicroservice image namespace_ token controllerEndpoint).ports = [60000] ∧
    ∃ c : container,
      (newKubeletMicroservice image namespace_ token controllerEndpoint).containers = [c] ∧
      c.image = image ∧
      c.args = ["--namespace", namespace_, "--iofog-token", token, "--iofog-url",
        "http://" ++ controllerEndpoint] :=
  ⟨rfl, rfl, rfl, _, rfl, rfl, rfl⟩

/-- C18. A live workload of one container whose arguments are those built by
`newKubeletMicroservice` passes the shape check of `getKubeletToken`, which
returns exactly the token the bundle was built with, whatever the four strings are. -/
theorem getKubeletToken_newKubeletMicroservice (image namespace_ token controllerEndpoint : String) :
    ∃ k : container,
      (newKubeletMicroservice image namespace_ token controllerEndpoint).containers = [k] ∧
      ∀ live : corev1.Container, live.Args = k.args →
        getKubeletToken [live] = some (token, none) := by
  refine ⟨_, rfl, ?_⟩
  intro live h
  simp [getKubeletToken, h]

/-! ## The coordinator bundle, its container -/

/-- C13. For a positive replica count the coordinator bundle is named
`controller`, keeps the count, exposes ports 51121 and 80 and has one container
with the given image, limits 1800m/3Gi, requests 400m/1Gi and a readiness probe
that is an HTTP GET of `/api/v3/status` on port 51121 with delay 1s, period 4s
and threshold 3; and the bundle for 3 replicas of `coord:v1`, load-balanced, on
the postgres database at port 5432 has 3 replicas, `DB_PROVIDER=postgres` and
`DB_PORT=5432`. -/
theorem newControllerMicroservice_bundle (replicas : Int) (image imagePullSecret : String)
    (db : iofogv1.Database) (svcType loadBalancerIP : String) (h : 0 < replicas) :
    ((newControllerMicroservice replicas image imagePullSecret db svcType loadBalancerIP).name
        = "controller" ∧
      (newControllerMicroservice replicas image imagePullSecret db svcType loadBalancerIP).replicas
        = replicas ∧
      (newControllerMicroservice replicas image imagePullSecret db svcType loadBalancerIP).ports
        = [51121, 80] ∧
      ∃ c : container,
        (newControllerMicroservice replicas image imagePullSecret db svcType
          loadBalancerIP).containers = [c] ∧
        c.image = image ∧
        c.resources.Limits
          = [("cpu", resource.MustParse "1800m"), ("memory", resource.MustParse "3Gi")] ∧
        c.resources.Requests
          = [("cpu", resource.MustParse "400m"), ("memory", resource.MustParse "1Gi")] ∧
        c.readinessProbe = some
          { Handler := { Exec := none
                         HTTPGet := some { Path := "/api/v3/status", Port := intstr.FromInt 51121 } }
            InitialDelaySeconds := 1
            PeriodSeconds := 4
            FailureThreshold := 3 }) ∧
    ((newControllerMicroservice 3 "coord:v1" imagePullSecret
        { Provider := "postgres", DatabaseName := "ctrl", User := "u", Password := "p",
          Host := "db", Port := 5432 } "LoadBalancer" loadBalancerIP).replicas = 3 ∧
      ∃ c : container,
        (newControllerMicroservice 3 "coord:v1" imagePullSecret
          { Provider := "postgres", DatabaseName := "ctrl", User := "u", Password := "p",
            Host := "db", Port := 5432 } "LoadBalancer" loadBalancerIP).containers = [c] ∧
        ({ Name := "DB_PROVIDER", Value := "postgres" } : corev1.EnvVar) ∈ c.env ∧
        ({ Name := "DB_PORT", Value := "5432" } : corev1.EnvVar) ∈ c.env) := by
  have h0 : replicas ≠ 0 := by omega
  refine ⟨⟨rfl, ?_, rfl, _, rfl, rfl, rfl, rfl, rfl⟩, rfl, _, rfl, ?_, ?_⟩
  · simp [newControllerMicroservice, h0]
  · simp
  · have hp : strconv.Itoa 5432 = "5432" := by decide
    simp [hp]

/-- Witness of C13: three replicas of `coord:v1`, load-balanced. -/
theorem newControllerMicroservice_bundle_witness :
    (newControllerMicroservice 3 "coord:v1" ""
      { Provider := "postgres", DatabaseName := "ctrl", User := "u", Password := "p",
        Host := "db", Port := 5432 } "LoadBalancer" "").replicas = 3 ∧
    (newControllerMicroservice 3 "coord:v1" ""
      { Provider := "postgres", DatabaseName := "ctrl", User := "u", Password := "p",
        Host := "db", Port := 5432 } "LoadBalancer" "").ports = [51121, 80] :=
  have h := (newControllerMicroservice_bundle 3 "coord:v1" ""
    { Provider := "postgres", DatabaseName := "ctrl", User := "u", Password := "p",
      Host := "db", Port := 5432 } "LoadBalancer" "" (by decide)).1
  ⟨h.2.1, h.2.2.1⟩

/-! ## The policy-manager bundle -/

/-- C14. The policy-manager bundle is named `port-manager`, has one replica and
no port, and its single container carries the three environment variables with
the given values, the readiness probe `stat /tmp/operator-sdk-ready` with delay
4s, period 10s and threshold 1, limits 200m/1Gi and requests 50m/200Mi. -/
theorem newPortManagerMicroservice_bundle
    (image watchNamespace iofogUserEmail iofogUserPass : String) :
    (newPortManagerMicroservice image watchNamespace iofogUserEmail iofogUserPass).name
      = "port-manager" ∧
    (newPortManagerMicroservice image watchNamespace iofogUserEmail iofogUserPass).replicas = 1 ∧
    (newPortManagerMicroservice image watchNamespace iofogUserEmail iofogUserPass).ports = [] ∧
    ∃ c : container,
      (newPortManagerMicroservice image watchNamespace iofogUserEmail iofogUserPass).containers
        = [c] ∧
      c.image = image ∧
      c.env = [{ Name := "WATCH_NAMESPACE", Value := watchNamespace },
        { Name := "IOFOG_USER_EMAIL", Value := iofogUserEmail },
        { Name := "IOFOG_USER_PASS", Value := iofogUserPass }] ∧
      c.readinessProbe = some
        { Handler := { Exec := some { Command := ["stat", "/tmp/operator-sdk-ready"] }
                       HTTPGet := none }
          InitialDelaySeconds := 4
          PeriodSeconds := 10
          FailureThreshold := 1 } ∧
      c.resources.Limits
        = [("cpu", resource.MustParse "200m"), ("memory", resource.MustParse "1Gi")] ∧
      c.resources.Requests
        = [("cpu", resource.MustParse "50m"), ("memory", resource.MustParse "200Mi")] :=
  ⟨rfl, rfl, rfl, _, rfl, rfl, rfl, rfl, rfl, rfl⟩

/-! ## The overlay-router bundle -/

/-- C15. The overlay-router bundle is named `skupper`, has one replica, the four
ports 5671, 9090, 55671 and 45671, exposure type `LoadBalancer` with the traffic
policy `Local` that `getTrafficPolicy` gives it, one rule granting get, list and
watch on pods, and the two secret-backed volumes `skupper-internal` and
`skupper-amqps`, each mounted at the base path, a slash and its name; every
volume mount names a declared volume. -/
theorem newSkupperMicroservice_bundle (routerConfig image volumeMountPath : String) :
    (newSkupperMicroservice routerConfig image volumeMountPath).name = "skupper" ∧
    (newSkupperMicroservice routerConfig image volumeMountPath).replicas = 1 ∧
    (newSkupperMicroservice routerConfig image volumeMountPath).ports
      = [5671, 9090, 55671, 45671] ∧
    (newSkupperMicroservice routerConfig image volumeMountPath).serviceType = "LoadBalancer" ∧
    (newSkupperMicroservice routerConfig image volumeMountPath).trafficPolicy = "Local" ∧
    (newSkupperMicroservice routerConfig image volumeMountPath).trafficPolicy
      = getTrafficPolicy (newSkupperMicroservice routerConfig image volumeMountPath).serviceType ∧
    (newSkupperMicroservice routerConfig image volumeMountPath).rbacRules
      = [{ Verbs := ["get", "list", "watch"], APIGroups := [""], Resources := ["pods"] }] ∧
    (newSkupperMicroservice routerConfig image volumeMountPath).volumes
      = [{ Name := "skupper-internal"
           VolumeSource := { Secret := some { SecretName := "skupper-internal" } } },
         { Name := "skupper-amqps"
           VolumeSource := { Secret := some { SecretName := "skupper-amqps" } } }] ∧
    ∃ c : container,
      (newSkupperMicroservice routerConfig image volumeMountPath).containers = [c] ∧
      c.image = image ∧
      c.volumeMounts
        = [{ Name := "skupper-internal", MountPath := volumeMountPath ++ "/" ++ "skupper-internal" },
           { Name := "skupper-amqps", MountPath := volumeMountPath ++ "/" ++ "skupper-amqps" }] ∧
      ∀ vm ∈ c.volumeMounts,
        ∃ v ∈ (newSkupperMicroservice routerConfig image volumeMountPath).volumes,
          v.Name = vm.Name := by
  have hpol : getTrafficPolicy "LoadBalancer" = "Local" := by decide
  refine ⟨rfl, rfl, rfl, rfl, rfl, hpol.symm, rfl, rfl, _, rfl, rfl, ?_, ?_⟩
  · simp [String.append_assoc]
  · intro vm hvm
    simp only [List.mem_cons, List.mem_singleton, List.not_mem_nil, or_false] at hvm
    rcases hvm with rfl | rfl
    · exact ⟨_, List.mem_cons_self _ _, rfl⟩
    · exact ⟨_, List.mem_cons_of_mem _ (List.mem_cons_self _ _), rfl⟩

/-! ## The coordinator environment -/

theorem digitValue_digitChar (d : Nat) (h : d < 10) : digitValue (Nat.digitChar d) = some d := by
  interval_cases d <;> decide

theorem readDigits_append (a : Nat) (l m : List Char) :
    readDigits a (l ++ m) = (readDigits a l).bind fun b => readDigits b m := by
  induction l generalizing a with
  | nil => rfl
  | cons c cs ih =>
    simp only [List.cons_append, readDigits]
    cases digitValue c with
    | none => rfl
    | some d => exact ih _

/-- The digits `Nat.toDigits` writes for `n` in front of `ds` read back as `n`. -/
theorem toDigitsCore_read (fuel : Nat) : ∀ (n : Nat) (ds : List Char), n < fuel →
    ∃ l, Nat.toDigitsCore 10 fuel n ds = l ++ ds ∧ l ≠ [] ∧
      ∀ a, readDigits a l = some (a * 10 ^ l.length + n) := by
  induction fuel with
  | zero => intro n ds h; omega
  | succ f ih =>
    intro n ds h
    have hd := digitValue_digitChar (n % 10) (Nat.mod_lt n (by decide))
    by_cases h0 : n / 10 = 0
    · refine ⟨[Nat.digitChar (n % 10)], by simp [Nat.toDigitsCore, h0], by simp, ?_⟩
      intro a
      simp only [readDigits, hd, List.length_singleton, pow_one]
      congr 1
      omega
    · obtain ⟨l, h1, h2, h3⟩ := ih (n / 10) (Nat.digitChar (n % 10) :: ds) (by omega)
      refine ⟨l ++ [Nat.digitChar (n % 10)], by simp [Nat.toDigitsCore, h0, h1], by simp, ?_⟩
      intro a
      rw [readDigits_append, h3 a]
      simp only [Option.some_bind, readDigits, hd, List.length_append, List.length_singleton,
        pow_succ]
      congr 1
      nlinarith [Nat.div_add_mod n 10]

theorem toDigits_read (n : Nat) :
    ∃ c cs, Nat.toDigits 10 n = c :: cs ∧ c ≠ '-' ∧ readDigits 0 (c :: cs) = some n := by
  obtain ⟨l, h1, h2, h3⟩ := toDigitsCore_read (n + 1) n [] (Nat.lt_succ_self n)
  rw [List.append_nil] at h1
  match l, h2 with
  | c :: cs, _ =>
    refine ⟨c, cs, h1, ?_, by simpa using h3 0⟩
    intro hc
    have := h3 0
    rw [hc] at this
    simp [readDigits, digitValue] at this

theorem parseDecimal_toString_nat (n : Nat) : parseDecimal (toString n) = some (n : Int) := by
  obtain ⟨c, cs, h1, h2, h3⟩ := toDigits_read n
  have hdata : (toString n).data = c :: cs := h1
  simp [parseDecimal, hdata, h2, parseDigits, h3]

/-- The decimal string `strconv.Itoa` writes reads back as the integer. -/
theorem parseDecimal_Itoa (i : Int) : parseDecimal (strconv.Itoa i) = some i := by
  cases i with
  | ofNat n => exact parseDecimal_toString_nat n
  | negSucc m =>
    obtain ⟨c, cs, h1, h2, h3⟩ := toDigits_read (m + 1)
    have hdata : (strconv.Itoa (Int.negSucc m)).data = '-' :: c :: cs := by
      show ("-" ++ toString (m + 1)).data = _
      rw [String.data_append]
      exact congrArg (fun l => '-' :: l) h1
    simp only [parseDecimal, hdata, if_true, parseDigits, List.isEmpty_cons, h3, Option.map_some',
      Bool.false_eq_true, if_false]
    rfl

/-- C12. The single container of the coordinator bundle has exactly the six
variables DB_PROVIDER, DB_NAME, DB_USERNAME, DB_PASSWORD, DB_HOST and DB_PORT,
in this order, with the database's provider, name, user, password and host as
they are and its port in base 10: the text of DB_PORT read as a decimal integer
is the port, and port 5432 is written `5432`. -/
theorem newControllerMicroservice_env (replicas : Int) (image imagePullSecret : String)
    (db : iofogv1.Database) (svcType loadBalancerIP : String) :
    (∃ c : container,
      (newControllerMicroservice replicas image imagePullSecret db svcType
        loadBalancerIP).containers = [c] ∧
      c.env = [{ Name := "DB_PROVIDER", Value := db.Provider },
        { Name := "DB_NAME", Value := db.DatabaseName },
        { Name := "DB_USERNAME", Value := db.User },
        { Name := "DB_PASSWORD", Value := db.Password },
        { Name := "DB_HOST", Value := db.Host },
        { Name := "DB_PORT", Value := strconv.Itoa db.Port }]) ∧
    parseDecimal (strconv.Itoa db.Port) = some db.Port ∧
    strconv.Itoa 5432 = "5432" :=
  ⟨⟨_, rfl, rfl⟩, parseDecimal_Itoa db.Port, by decide⟩

/-! ## The credentials in a pass -/

/-- The spec is shared by pointer: what the controller method writes into it is
what the three later methods receive. -/
theorem received_meddling :
    (received meddling {} []).map (fun c => (c.stage, c.kog.Spec.ControlPlane.ControllerImage))
      = [(Stage.controller, sampleKog.Spec.ControlPlane.ControllerImage),
          (Stage.kubelet, "other"), (Stage.portManager, "other"), (Stage.skupper, "other")] := by
  decide

/-- C16. In a pass where the spec is fetched and the password decodes to
`password`: `decode` is applied once, to the fetched password, before any
component reconciler is called; the first call goes to the controller method
and hands it the fetched spec with the password replaced by `password`, a spec
whose other fields are the fetched ones (putting the fetched password back
gives the fetched spec); every call hands over what the earlier methods left
behind the pointer, so when the first three methods leave that spec as they
find it every method called receives exactly it; a pass that returns nil has
called all four; and the trace of the pass lists exactly the calls received. -/
theorem Reconcile_decodes_once {σ : Type} (r : ReconcileKog σ) (request : reconcile.Request)
    (s s1 : σ) (kog : iofogv1.Kog) (password : List Byte)
    (hget : r.clientGet request s = (Except.ok kog, s1))
    (hdec : decode kog.Spec.ControlPlane.IofogUser.Password = (password, none)) :
    decodeCalls (Reconcile r request s).trace = [kog.Spec.ControlPlane.IofogUser.Password] ∧
    (∃ before after, (Reconcile r request s).trace
        = before ++ Event.decode kog.Spec.ControlPlane.IofogUser.Password none :: after ∧
      stageCalls before = [] ∧ decodeCalls after = []) ∧
    (∃ e rest, received r request s
        = ⟨Stage.controller, setPassword kog password, e⟩ :: rest) ∧
    (setPassword kog password).Spec.ControlPlane.IofogUser.Password = password ∧
    setPassword (setPassword kog password) kog.Spec.ControlPlane.IofogUser.Password = kog ∧
    (∀ c ∈ received r request s,
      c.kog = (stateAfter r (setPassword kog password, s1) (stagesBefore c.stage)).1) ∧
    ((∀ st ∈ [Stage.controller, Stage.kubelet, Stage.portManager], ∀ v : σ,
        (r.run st (setPassword kog password) v).2.1 = setPassword kog password) →
      ∀ c ∈ received r request s, c.kog = setPassword kog password) ∧
    ((Reconcile r request s).err = none →
      (received r request s).map Received.stage = reconcilerOrder) ∧
    (∀ st k e, Event.reconcile st k e ∈ (Reconcile r request s).trace ↔
      (⟨st, k, e⟩ : Received) ∈ received r request s) := by
  rcases h0 : r.reconcileIofogController (setPassword kog password) s1 with ⟨e0, k1, s2⟩
  rcases h1 : r.reconcileIofogKubelet k1 s2 with ⟨e1, k2, s3⟩
  rcases h2 : r.reconcilePortManager k2 s3 with ⟨e2, k3, s4⟩
  rcases h3 : r.reconcileSkupper k3 s4 with ⟨e3, k4, s5⟩
  refine ⟨?_, ?_, ?_, rfl, rfl, ?_, ?_, ?_, ?_⟩
  · cases e0 <;> cases e1 <;> cases e2 <;> cases e3 <;>
      simp [Reconcile, hget, hdec, h0, h1, h2, h3, decodeCalls]
  · refine ⟨[Event.info "Reconciling Control Plane", Event.get request none], ?_⟩
    cases e0 <;> cases e1 <;> cases e2 <;> cases e3 <;>
      simp [Reconcile, hget, hdec, h0, h1, h2, h3, decodeCalls, stageCalls]
  · cases e0 <;> cases e1 <;> cases e2 <;> cases e3 <;>
      simp [received, spy, Reconcile, hget, hdec, h0, h1, h2, h3]
  · cases e0 <;> cases e1 <;> cases e2 <;> cases e3 <;>
      simp [received, spy, Reconcile, hget, hdec, h0, h1, h2, h3, stagesBefore_controller,
        stagesBefore_kubelet, stagesBefore_portManager, stagesBefore_skupper, stateAfter,
        ReconcileKog.run]
  · intro hframe
    have hk1 : k1 = setPassword kog password := by
      have h := hframe Stage.controller (by simp) s1
      simpa [ReconcileKog.run, h0] using h
    subst hk1
    have hk2 : k2 = setPassword kog password := by
      have h := hframe Stage.kubelet (by simp) s2
      simpa [ReconcileKog.run, h1] using h
    subst hk2
    have hk3 : k3 = setPassword kog password := by
      have h := hframe Stage.portManager (by simp) s3
      simpa [ReconcileKog.run, h2] using h
    subst hk3
    cases e0 <;> cases e1 <;> cases e2 <;> cases e3 <;>
      simp [received, spy, Reconcile, hget, hdec, h0, h1, h2, h3]
  · cases e0 <;> cases e1 <;> cases e2 <;> cases e3 <;>
      simp [received, spy, Reconcile, hget, hdec, h0, h1, h2, h3, reconcilerOrder]
  · intro st k e
    cases e0 <;> cases e1 <;> cases e2 <;> cases e3 <;>
      simp [received, spy, Reconcile, hget, hdec, h0, h1, h2, h3]

/-- Witness of C16: in a pass over the sample spec in which every stage
succeeds, each of the four methods receives the sample spec with the password
`pass`. -/
theorem Reconcile_decodes_once_witness :
    decodeCalls (Reconcile (journal (some sampleKog) none) {} []).trace = [ascii "cGFzcw=="] ∧
    (∀ c ∈ received (journal (some sampleKog) none) {} [],
      c.kog = setPassword sampleKog (ascii "pass")) ∧
    (received (journal (some sampleKog) none) {} []).map Received.stage = reconcilerOrder :=
  have h := Reconcile_decodes_once (journal (some sampleKog) none) {} [] [] sampleKog
    (ascii "pass") rfl (by decide)
  ⟨h.1, h.2.2.2.2.2.2.1 (fun st _ _ => by cases st <;> rfl),
    h.2.2.2.2.2.2.2.1 (by decide)⟩

/-! ## Encoding what was decoded -/

theorem stdChar_sextet {a : Byte} (h : a ∈ encodeStd) : stdChar (sextet a) = a := by
  have h2 := List.indexOf_get? h
  simp only [stdChar, sextet, List.getD_eq_getElem?_getD]
  rw [← List.get?_eq_getElem?, h2]
  rfl

theorem stdChar_inj {v w : Nat} (hv : v < 64) (hw : w < 64) (h : stdChar v = stdChar w) :
    v = w := by
  rw [← sextet_stdChar hv, ← sextet_stdChar hw, h]

theorem EncodeToString_one (sa sb : Nat) (ha : sa < 64) (hb : sb < 64) :
    EncodeToString [byte (sa * 4 + sb / 16)]
      = [stdChar sa, stdChar (sb / 16 * 16), StdPadding, StdPadding] := by
  have hx : (byte (sa * 4 + sb / 16)).val = sa * 4 + sb / 16 := by
    simp only [byte]
    omega
  simp only [EncodeToString, hx]
  have e0 : (sa * 4 + sb / 16) * 65536 / 262144 % 64 = sa := by omega
  have e1 : (sa * 4 + sb / 16) * 65536 / 4096 % 64 = sb / 16 * 16 := by omega
  rw [e0, e1]

theorem EncodeToString_two (sa sb sc : Nat) (ha : sa < 64) (hb : sb < 64) (hc : sc < 64) :
    EncodeToString [byte (sa * 4 + sb / 16), byte (sb % 16 * 16 + sc / 4)]
      = [stdChar sa, stdChar sb, stdChar (sc / 4 * 4), StdPadding] := by
  have hx : (byte (sa * 4 + sb / 16)).val = sa * 4 + sb / 16 := by
    simp only [byte]
    omega
  have hy : (byte (sb % 16 * 16 + sc / 4)).val = sb % 16 * 16 + sc / 4 := by
    simp only [byte]
    omega
  simp only [EncodeToString, hx, hy]
  have e0 : ((sa * 4 + sb / 16) * 65536 + (sb % 16 * 16 + sc / 4) * 256) / 262144 % 64 = sa := by
    omega
  have e1 : ((sa * 4 + sb / 16) * 65536 + (sb % 16 * 16 + sc / 4) * 256) / 4096 % 64 = sb := by
    omega
  have e2 : ((sa * 4 + sb / 16) * 65536 + (sb % 16 * 16 + sc / 4) * 256) / 64 % 64
      = sc / 4 * 4 := by
    omega
  rw [e0, e1, e2]

theorem EncodeToString_three (sa sb sc sd : Nat) (l : List Byte) (ha : sa < 64) (hb : sb < 64)
    (hc : sc < 64) (hd : sd < 64) :
    EncodeToString (byte (sa * 4 + sb / 16) :: byte (sb % 16 * 16 + sc / 4)
        :: byte (sc % 4 * 64 + sd) :: l)
      = stdChar sa :: stdChar sb :: stdChar sc :: stdChar sd :: EncodeToString l := by
  have hx : (byte (sa * 4 + sb / 16)).val = sa * 4 + sb / 16 := by
    simp only [byte]
    omega
  have hy : (byte (sb % 16 * 16 + sc / 4)).val = sb % 16 * 16 + sc / 4 := by
    simp only [byte]
    omega
  have hz : (byte (sc % 4 * 64 + sd)).val = sc % 4 * 64 + sd := by
    simp only [byte]
    omega
  simp only [EncodeToString, hx, hy, hz]
  have e0 : ((sa * 4 + sb / 16) * 65536 + (sb % 16 * 16 + sc / 4) * 256 + (sc % 4 * 64 + sd))
      / 262144 % 64 = sa := by omega
  have e1 : ((sa * 4 + sb / 16) * 65536 + (sb % 16 * 16 + sc / 4) * 256 + (sc % 4 * 64 + sd))
      / 4096 % 64 = sb := by omega
  have e2 : ((sa * 4 + sb / 16) * 65536 + (sb % 16 * 16 + sc / 4) * 256 + (sc % 4 * 64 + sd))
      / 64 % 64 = sc := by omega
  have e3 : ((sa * 4 + sb / 16) * 65536 + (sb % 16 * 16 + sc / 4) * 256 + (sc % 4 * 64 + sd))
      % 64 = sd := by omega
  rw [e0, e1, e2, e3]

/-- Encoding the plaintext of a valid string gives the string back exactly
when its unused trailing bits are zero. -/
theorem EncodeToString_plaintext : ∀ t : List Byte, validStd t = true →
    (EncodeToString (plaintext t) = t ↔ tailBitsZero t = true)
  | [] => fun _ => by simp [plaintext, EncodeToString, tailBitsZero]
  | [_] => fun h => by simp [validStd] at h
  | [_, _] => fun h => by simp [validStd] at h
  | [_, _, _] => fun h => by simp [validStd] at h
  | a :: b :: c :: d :: rest => fun h => by
    simp only [validStd, Bool.and_eq_true, decide_eq_true_eq] at h
    obtain ⟨⟨ha, hb⟩, h⟩ := h
    have hsa := (decodeMap_of_mem ha).2
    have hsb := (decodeMap_of_mem hb).2
    by_cases hc : c = StdPadding
    · simp only [hc, if_true, Bool.and_eq_true, decide_eq_true_eq, List.isEmpty_iff] at h
      obtain ⟨hd, hr⟩ := h
      subst hr hc hd
      simp only [plaintext, tailBitsZero, if_true, EncodeToString_one _ _ hsa hsb,
        stdChar_sextet ha, List.cons.injEq, true_and, and_true, beq_iff_eq]
      constructor
      · intro he
        have := stdChar_inj (by omega) hsb (he.trans (stdChar_sextet hb).symm)
        omega
      · intro he
        have e : sextet b / 16 * 16 = sextet b := by omega
        rw [e, stdChar_sextet hb]
    · simp only [hc, if_false, Bool.and_eq_true, decide_eq_true_eq] at h
      obtain ⟨hc2, h⟩ := h
      have hsc := (decodeMap_of_mem hc2).2
      by_cases hd : d = StdPadding
      · simp only [hd, if_true, List.isEmpty_iff] at h
        subst h hd
        simp only [plaintext, tailBitsZero, hc, if_false, if_true,
          EncodeToString_two _ _ _ hsa hsb hsc, stdChar_sextet ha, stdChar_sextet hb,
          List.cons.injEq, true_and, and_true, beq_iff_eq]
        constructor
        · intro he
          have := stdChar_inj (by omega) hsc (he.trans (stdChar_sextet hc2).symm)
          omega
        · intro he
          have e : sextet c / 4 * 4 = sextet c := by omega
          rw [e, stdChar_sextet hc2]
      · simp only [hd, if_false, Bool.and_eq_true, decide_eq_true_eq] at h
        obtain ⟨hd2, hr⟩ := h
        have hsd := (decodeMap_of_mem hd2).2
        have ih := EncodeToString_plaintext rest hr
        simp only [plaintext, tailBitsZero, hc, hd, if_false,
          EncodeToString_three _ _ _ _ _ hsa hsb hsc hsd, stdChar_sextet ha, stdChar_sextet hb,
          stdChar_sextet hc2, stdChar_sextet hd2, List.cons.injEq, true_and]
        exact ih

/-- What an accepted input decodes to. -/
theorem decode_accepted (e p : List Byte) (h : decode e = (p, none)) :
    validStd (stripNewlines e) = true ∧ p = plaintext (stripNewlines e) := by
  obtain ⟨hv, hp⟩ := DecodeString_spec e
  rcases hd : DecodeString e with ⟨bytes, err⟩
  rw [hd] at hv hp
  cases err with
  | some x => simp [decode, hd] at h
  | none =>
    simp only [decode, hd, Prod.mk.injEq, and_true] at h
    subst h
    have hvalid := hv.mp rfl
    exact ⟨hvalid, by simpa using hp hvalid⟩

/-- C19, the claim as stated fails: `QR==` is accepted and decodes to `A`, whose
encoding is `QQ==` (non-zero trailing bits are accepted); `QQ==` followed by a
line feed is accepted as well (line breaks are accepted); so two different
accepted inputs decode to the same plaintext. -/
theorem decode_not_injective :
    decode (ascii "QR==") = (ascii "A", none) ∧
    EncodeToString (ascii "A") = ascii "QQ==" ∧
    EncodeToString (decode (ascii "QR==")).1 ≠ ascii "QR==" ∧
    decode (ascii "QQ==\n") = (ascii "A", none) ∧
    EncodeToString (decode (ascii "QQ==\n")).1 ≠ ascii "QQ==\n" ∧
    decode (ascii "QR==") = decode (ascii "QQ==") ∧ ascii "QR==" ≠ ascii "QQ==" := by
  decide

/-- C19, amended. For an input `e` on which `decode` succeeds, the standard
encoding of the decoded text is `e` itself exactly when `e` holds no carriage
return or line feed and the unused bits of its last character before the
padding are zero; on these inputs `decode` is injective. -/
theorem EncodeToString_decode (e p : List Byte) (h : decode e = (p, none)) :
    (EncodeToString p = e ↔ stripNewlines e = e ∧ tailBitsZero e = true) ∧
    ∀ e2 : List Byte, decode e2 = (p, none) →
      stripNewlines e = e → tailBitsZero e = true →
      stripNewlines e2 = e2 → tailBitsZero e2 = true → e = e2 := by
  have key : ∀ x : List Byte, decode x = (p, none) → stripNewlines x = x →
      tailBitsZero x = true → EncodeToString p = x := by
    intro x hx hs ht
    obtain ⟨hv, hp⟩ := decode_accepted x p hx
    rw [hs] at hv hp
    rw [hp]
    exact (EncodeToString_plaintext x hv).mpr ht
  refine ⟨⟨?_, fun hc => key e h hc.1 hc.2⟩, ?_⟩
  · intro henc
    obtain ⟨hv, hp⟩ := decode_accepted e p h
    have hstrip : stripNewlines e = e := by
      rw [← henc]
      exact (EncodeToString_spec p).1
    rw [hstrip] at hv hp
    refine ⟨hstrip, (EncodeToString_plaintext e hv).mp ?_⟩
    rw [← hp]
    exact henc
  · intro e2 h2 hs ht hs2 ht2
    rw [← key e h hs ht, ← key e2 h2 hs2 ht2]

/-- Witness of C19: the canonical `QQ==` decodes to `A`, which encodes to `QQ==`. -/
theorem EncodeToString_decode_witness :
    EncodeToString (ascii "A") = ascii "QQ=="
      ↔ stripNewlines (ascii "QQ==") = ascii "QQ==" ∧ tailBitsZero (ascii "QQ==") = true :=
  (EncodeToString_decode (ascii "QQ==") (ascii "A") (by decide)).1

/-! ## The connector name prefix -/

theorem ascii_connector :
    ascii "connector-" = [99, 111, 110, 110, 101, 99, 116, 111, 114, 45] := by decide

theorem ascii_hyphen : ascii "-" = [45] := by decide

/-- A found offset lies inside the searched string. -/
theorem strings.Index.go_range (c : Byte) (s : List Byte) (i : Nat) :
    strings.Index.go [c] s i = -1 ∨
      ((i : Int) ≤ strings.Index.go [c] s i ∧
        strings.Index.go [c] s i + 1 ≤ (i : Int) + (s.length : Int)) := by
  induction s generalizing i with
  | nil => exact Or.inl rfl
  | cons d t ih =>
    rw [strings.Index.go]
    split
    · right
      simp only [List.length_cons, Nat.cast_add, Nat.cast_one]
      omega
    · rcases ih (i + 1) with h | h
      · exact Or.inl h
      · right
        simp only [List.length_cons, Nat.cast_add, Nat.cast_one] at h ⊢
        omega

theorem strings.Index_connector (name : List Byte) :
    strings.Index (ascii "connector-" ++ name) (ascii "-") = 9 := by
  rw [ascii_connector, ascii_hyphen]
  simp [strings.Index, strings.Index.go, List.isPrefixOf]

/-- C20. `prefixConnectorName` puts `connector-` in front of the name;
`removeConnectorNamePrefix` takes it off again from every non-empty name,
hyphens in the name or not; for the empty name the result is `connector-`, not
the empty string; and on every input `removeConnectorNamePrefix` returns: its
slice expression is never out of range. -/
theorem removeConnectorNamePrefix_prefixConnectorName :
    (∀ name : List Byte, prefixConnectorName name = getConnectorNamePrefix ++ name) ∧
    (∀ name : List Byte, name ≠ [] →
      removeConnectorNamePrefix (prefixConnectorName name) = some name) ∧
    removeConnectorNamePrefix (prefixConnectorName (ascii "a-b-c")) = some (ascii "a-b-c") ∧
    removeConnectorNamePrefix (prefixConnectorName []) = some (ascii "connector-") ∧
    ascii "connector-" ≠ [] ∧
    ∀ name : List Byte, ∃ r, removeConnectorNamePrefix name = some r := by
  have hnonempty : ∀ name : List Byte, name ≠ [] →
      removeConnectorNamePrefix (prefixConnectorName name) = some name := by
    intro name hne
    have hlen : 0 < name.length := List.length_pos.mpr hne
    have h10 : (ascii "connector-").length = 10 := by decide
    simp only [removeConnectorNamePrefix, prefixConnectorName, strings.Index_connector,
      List.length_append, h10, Nat.cast_add, Nat.cast_ofNat]
    rw [if_neg (by omega), if_pos (by omega)]
    have h : ((9 : Int) + 1).toNat = (ascii "connector-").length := by decide
    rw [h, List.drop_left]
  refine ⟨fun _ => rfl, hnonempty, hnonempty _ (by decide), by decide, by decide, ?_⟩
  intro name
  simp only [removeConnectorNamePrefix, ascii_hyphen]
  rcases strings.Index.go_range 45 name 0 with h | h
  · exact ⟨name, by simp [strings.Index, h]⟩
  · by_cases hc : strings.Index name [45] = -1 ∨ strings.Index name [45] ≥ (name.length : Int) - 1
    · exact ⟨name, by rw [if_pos hc]⟩
    · refine ⟨name.drop (strings.Index name [45] + 1).toNat, ?_⟩
      rw [if_neg hc, if_pos]
      simp only [strings.Index]
      omega

/-! ## Idempotence of convergence -/

/-- What `converge` does, by the answer of the platform to the read, the live
object found and the answer to the write. -/
theorem converge_cases (p : Platform) (b : microservice) (w : World) :
    (converge p b w).2.apiEndpoint = w.apiEndpoint ∧
    (∀ n, n ≠ b.name → (converge p b w).2.live n = w.live n) ∧
    (rejected w.calls).length ≤ (rejected (converge p b w).2.calls).length ∧
    (mutations w.calls).length ≤ (mutations (converge p b w).2.calls).length ∧
    ((converge p b w).1 = none →
      (∃ l, (converge p b w).2.live b.name = some l ∧ observable l = observable b) ∧
      (rejected (converge p b w).2.calls).length = (rejected w.calls).length) ∧
    (∀ l, w.live b.name = some l → observable l = observable b →
      (converge p b w).2.live = w.live ∧
      (mutations (converge p b w).2.calls).length = (mutations w.calls).length) ∧
    ((converge p b w).1 ≠ none →
      (rejected (converge p b w).2.calls).length = (rejected w.calls).length →
      p.rejects (Call.get b.name) w.live ≠ none) ∧
    (p.rejects (Call.get b.name) w.live ≠ none →
      (converge p b w).1 ≠ none ∧ (converge p b w).2.live = w.live ∧
      (mutations (converge p b w).2.calls).length = (mutations w.calls).length) := by
  rcases hg : p.rejects (Call.get b.name) w.live with _ | eg
  · rcases hl : w.live b.name with _ | l
    · rcases hc : p.rejects (Call.create b.name b) w.live with _ | ec
      · simp [converge, Platform.call, hg, hl, hc, Call.effect, mutations, rejected,
          Call.mutating, List.filter_append]
        intro n hn
        exact Function.update_noteq hn _ _
      · simp [converge, Platform.call, hg, hl, hc, Call.effect, mutations, rejected,
          Call.mutating, List.filter_append]
    · by_cases hd : observable l = observable b
      · simp [converge, Platform.call, hg, hl, hd, Call.effect, mutations, rejected,
          Call.mutating, List.filter_append]
      · rcases hc : p.rejects (Call.update b.name b) w.live with _ | ec
        · simp [converge, Platform.call, hg, hl, hd, hc, Call.effect, mutations, rejected,
            Call.mutating, List.filter_append]
          intro n hn
          exact Function.update_noteq hn _ _
        · simp [converge, Platform.call, hg, hl, hd, hc, Call.effect, mutations, rejected,
            Call.mutating, List.filter_append]
  · simp [converge, Platform.call, hg, Call.effect, mutations, rejected,
      Call.mutating, List.filter_append]

/-- A stage that is `converge` on a bundle of its name obeys the stage law. -/
theorem StageLaw_converge (p : Platform) (kog : iofogv1.Kog) (st : Stage) (b : microservice)
    (hname : b.name = stageName st)
    (hobs : observable b = observable (stageBundle p kog "" "" st)) :
    StageLaw p kog st fun _ w => converge p b w := by
  intro t w
  obtain ⟨_, h2, h3, h4, h5, h6, h7, _⟩ := converge_cases p b w
  rw [hname] at h2 h5 h6
  rw [hobs] at h5 h6
  refine ⟨h2, h3, h4, h5, h6, ?_⟩
  intro hfail hrej
  have hget := h7 hfail hrej
  refine ⟨((converge_cases p b w).2.2.2.2.2.2.2 hget).2.1, ?_⟩
  intro t2 w2 hw2
  rw [← hw2] at hget
  exact (converge_cases p b w2).2.2.2.2.2.2.2 hget

theorem StageLaw_portManager (p : Platform) (kog : iofogv1.Kog) :
    StageLaw p kog Stage.portManager (specStep p kog Stage.portManager) :=
  StageLaw_converge p kog Stage.portManager _ rfl rfl

theorem StageLaw_skupper (p : Platform) (kog : iofogv1.Kog) :
    StageLaw p kog Stage.skupper (specStep p kog Stage.skupper) :=
  StageLaw_converge p kog Stage.skupper _ rfl rfl

/-- The stage law reads only the error, the live state and the journal of a step. -/
theorem StageLaw_congr (p : Platform) (kog : iofogv1.Kog) (st : Stage)
    (step step2 : String → World → Option GoError × World)
    (h : ∀ t w, (step2 t w).1 = (step t w).1 ∧ (step2 t w).2.live = (step t w).2.live ∧
      (step2 t w).2.calls = (step t w).2.calls)
    (law : StageLaw p kog st step) : StageLaw p kog st step2 := by
  intro t w
  obtain ⟨l1, l2, l3, l4, l5, l6⟩ := law t w
  obtain ⟨e1, e2, e3⟩ := h t w
  rw [e1, e2, e3]
  refine ⟨l1, l2, l3, l4, l5, ?_⟩
  intro hfail hrej
  refine ⟨(l6 hfail hrej).1, ?_⟩
  intro t2 w2 hw2
  obtain ⟨f1, f2, f3⟩ := h t2 w2
  rw [f1, f2, f3]
  exact (l6 hfail hrej).2 t2 w2 hw2

theorem StageLaw_controller (p : Platform) (kog : iofogv1.Kog) :
    StageLaw p kog Stage.controller (specStep p kog Stage.controller) := by
  refine StageLaw_congr p kog Stage.controller _ _ ?_
    (StageLaw_converge p kog Stage.controller (stageBundle p kog "" "" Stage.controller) rfl rfl)
  intro t w
  show (specController p kog w).1 = _ ∧ (specController p kog w).2.live = _ ∧
    (specController p kog w).2.calls = _
  unfold specController
  rcases hc : converge p (newControllerMicroservice kog.Spec.ControlPlane.ControllerReplicaCount
      kog.Spec.ControlPlane.ControllerImage kog.Spec.ControlPlane.ImagePullSecret
      kog.Spec.ControlPlane.Database kog.Spec.ControlPlane.ServiceType
      kog.Spec.ControlPlane.LoadBalancerIP) w with ⟨_ | e, w1⟩
  · rcases hl : w1.live "controller" with _ | l <;> simp [stageBundle, hc, hl]
  · simp [stageBundle, hc]

/-- After an accepted read the live state is as before and the journal has
one more entry, which is no write. -/
theorem Platform.call_get (p : Platform) (n : String) (w : World)
    (h : p.rejects (Call.get n) w.live = none) :
    (p.call (Call.get n) w).1 = none ∧ (p.call (Call.get n) w).2.live = w.live ∧
    (p.call (Call.get n) w).2.apiEndpoint = w.apiEndpoint ∧
    (rejected (p.call (Call.get n) w).2.calls).length = (rejected w.calls).length ∧
    (mutations (p.call (Call.get n) w).2.calls).length = (mutations w.calls).length := by
  simp [Platform.call, h, Call.effect, mutations, rejected, Call.mutating, List.filter_append]

theorem StageLaw_kubelet (p : Platform) (kog : iofogv1.Kog) :
    StageLaw p kog Stage.kubelet fun t w => specKubelet p t kog w := by
  intro t w
  dsimp only
  rcases hg : p.rejects (Call.get "kubelet") w.live with _ | eg
  · -- the read of the live workload is accepted
    obtain ⟨c1, c2, c3, c4, c5⟩ := Platform.call_get p "kubelet" w hg
    rcases hcall : p.call (Call.get "kubelet") w with ⟨e1, w1⟩
    rw [hcall] at c1 c2 c3 c4 c5
    simp only at c1 c2 c3 c4 c5
    subst c1
    -- the stage when it goes on to converge a bundle built from `token`
    have viaConverge : ∀ token : String,
        specKubelet p t kog w
          = converge p (newKubeletMicroservice kog.Spec.KubeletImage kog.Namespace token
              w1.apiEndpoint) w1 →
        (∀ n, n ≠ stageName Stage.kubelet → (specKubelet p t kog w).2.live n = w.live n) ∧
        (rejected w.calls).length ≤ (rejected (specKubelet p t kog w).2.calls).length ∧
        (mutations w.calls).length ≤ (mutations (specKubelet p t kog w).2.calls).length ∧
        ((specKubelet p t kog w).1 = none →
          (∃ l, (specKubelet p t kog w).2.live (stageName Stage.kubelet) = some l ∧
            observable l = observable (stageBundle p kog "" "" Stage.kubelet)) ∧
          (rejected (specKubelet p t kog w).2.calls).length = (rejected w.calls).length) ∧
        (∀ l, w.live (stageName Stage.kubelet) = some l →
          observable l = observable (stageBundle p kog "" "" Stage.kubelet) →
          (specKubelet p t kog w).2.live = w.live ∧
          (mutations (specKubelet p t kog w).2.calls).length = (mutations w.calls).length) ∧
        ((specKubelet p t kog w).1 ≠ none →
          (rejected (specKubelet p t kog w).2.calls).length = (rejected w.calls).length →
          False) := by
      intro token heq
      obtain ⟨_, k2, k3, k4, k5, k6, k7, _⟩ := converge_cases p
        (newKubeletMicroservice kog.Spec.KubeletImage kog.Namespace token w1.apiEndpoint) w1
      rw [heq]
      rw [c2, c4] at *
      rw [c5] at k4 k6
      refine ⟨k2, k3, k4, k5, k6, ?_⟩
      intro hfail hrej
      exact k7 hfail hrej hg
    -- the stage when it fails right after the read
    have failAfterRead : ∀ err : GoError,
        (∀ (t2 : String) (w2 : World), w2.live = w.live →
          specKubelet p t2 kog w2 = (some err, (p.call (Call.get "kubelet") w2).2)) →
        (∀ n, n ≠ stageName Stage.kubelet → (specKubelet p t kog w).2.live n = w.live n) ∧
        (rejected w.calls).length ≤ (rejected (specKubelet p t kog w).2.calls).length ∧
        (mutations w.calls).length ≤ (mutations (specKubelet p t kog w).2.calls).length ∧
        ((specKubelet p t kog w).1 = none →
          (∃ l, (specKubelet p t kog w).2.live (stageName Stage.kubelet) = some l ∧
            observable l = observable (stageBundle p kog "" "" Stage.kubelet)) ∧
          (rejected (specKubelet p t kog w).2.calls).length = (rejected w.calls).length) ∧
        (∀ l, w.live (stageName Stage.kubelet) = some l →
          observable l = observable (stageBundle p kog "" "" Stage.kubelet) →
          (specKubelet p t kog w).2.live = w.live ∧
          (mutations (specKubelet p t kog w).2.calls).length = (mutations w.calls).length) ∧
        ((specKubelet p t kog w).1 ≠ none →
          (rejected (specKubelet p t kog w).2.calls).length = (rejected w.calls).length →
          (specKubelet p t kog w).2.live = w.live ∧
          ∀ (t2 : String) (w2 : World), w2.live = w.live →
            (specKubelet p t2 kog w2).1 ≠ none ∧ (specKubelet p t2 kog w2).2.live = w2.live ∧
            (mutations (specKubelet p t2 kog w2).2.calls).length
              = (mutations w2.calls).length) := by
      intro err heq
      have hq : ∀ w2 : World, w2.live = w.live →
          (p.call (Call.get "kubelet") w2).2.live = w2.live ∧
          (rejected (p.call (Call.get "kubelet") w2).2.calls).length
            = (rejected w2.calls).length ∧
          (mutations (p.call (Call.get "kubelet") w2).2.calls).length
            = (mutations w2.calls).length := by
        intro w2 hw2
        have hg2 : p.rejects (Call.get "kubelet") w2.live = none := by rw [hw2]; exact hg
        have := Platform.call_get p "kubelet" w2 hg2
        exact ⟨this.2.1, this.2.2.2.1, this.2.2.2.2⟩
      rw [heq t w rfl]
      obtain ⟨q1, q2, q3⟩ := hq w rfl
      refine ⟨fun n _ => by rw [q1], by rw [q2], by rw [q3], fun h => (by cases h),
        fun _ _ _ => ⟨q1, q3⟩, fun _ _ => ⟨q1, ?_⟩⟩
      intro t2 w2 hw2
      rw [heq t2 w2 hw2]
      obtain ⟨r1, _, r3⟩ := hq w2 hw2
      exact ⟨by simp, r1, r3⟩
    rcases hl : w.live "kubelet" with _ | l
    · have heq : specKubelet p t kog w
          = converge p (newKubeletMicroservice kog.Spec.KubeletImage kog.Namespace t
              w1.apiEndpoint) w1 := by
        simp [specKubelet, hcall, c2, hl]
      obtain ⟨v1, v2, v3, v4, v5, v6⟩ := viaConverge t heq
      exact ⟨v1, v2, v3, v4, v5, fun hf hr => (v6 hf hr).elim⟩
    · rcases ht : getKubeletToken (liveContainers l) with _ | ⟨token, _ | err⟩
      · -- out of range
        apply failAfterRead (errors.New "index out of range")
        intro t2 w2 hw2
        simp [specKubelet, Platform.call, hw2, hg, hl, ht, Call.effect]
      · have heq : specKubelet p t kog w
            = converge p (newKubeletMicroservice kog.Spec.KubeletImage kog.Namespace token
                w1.apiEndpoint) w1 := by
          simp [specKubelet, hcall, c2, hl, ht]
        obtain ⟨v1, v2, v3, v4, v5, v6⟩ := viaConverge token heq
        exact ⟨v1, v2, v3, v4, v5, fun hf hr => (v6 hf hr).elim⟩
      · -- malformed live workload
        apply failAfterRead err
        intro t2 w2 hw2
        simp [specKubelet, Platform.call, hw2, hg, hl, ht, Call.effect]
  · -- the read of the live workload is rejected
    have heq : ∀ (t2 : String) (w2 : World), w2.live = w.live →
        specKubelet p t2 kog w2
          = (some eg, { w2 with calls := w2.calls ++ [(Call.get "kubelet", some eg)] }) := by
      intro t2 w2 hw2
      simp [specKubelet, Platform.call, hw2, hg]
    have hq : ∀ w2 : World,
        (rejected (w2.calls ++ [(Call.get "kubelet", some eg)])).length
          = (rejected w2.calls).length ∧
        (mutations (w2.calls ++ [(Call.get "kubelet", some eg)])).length
          = (mutations w2.calls).length := by
      intro w2
      simp [mutations, rejected, Call.mutating, List.filter_append]
    rw [heq t w rfl]
    refine ⟨fun n _ => rfl, by rw [(hq w).1], by rw [(hq w).2], fun h => (by cases h),
      fun _ _ _ => ⟨rfl, (hq w).2⟩, fun _ _ => ⟨rfl, ?_⟩⟩
    intro t2 w2 hw2
    rw [heq t2 w2 hw2]
    exact ⟨by simp, rfl, (hq w2).2⟩

/-- A reconciler of the specification returns the spec it was handed. -/
theorem specReconciler_run (p : Platform) (t : String) (st : Stage) (kog : iofogv1.Kog)
    (w : World) :
    (specReconciler p t).run st kog w = ((specStep p kog st t w).1, kog, (specStep p kog st t w).2) := by
  cases st <;> rfl

/-- Each of the four reconcilers of the specification obeys the stage law. -/
theorem StageLaw_spec (p : Platform) (kog : iofogv1.Kog) (st : Stage) :
    StageLaw p kog st (specStep p kog st) := by
  cases st
  · exact StageLaw_controller p kog
  · exact StageLaw_kubelet p kog
  · exact StageLaw_portManager p kog
  · exact StageLaw_skupper p kog

theorem stageName_injective {a b : Stage} (h : stageName a = stageName b) : a = b := by
  cases a <;> cases b <;> first | rfl | (exact absurd h (by decide))

/-- Stages run in sequence touch only their own components, and their journal only grows. -/
theorem runStages_frame (p : Platform) (kog : iofogv1.Kog) (t : String) :
    ∀ (sts : List Stage) (w : World),
      (∀ n, (∀ st ∈ sts, stageName st ≠ n) →
        (runStages (specReconciler p t) sts kog w).2.live n = w.live n) ∧
      (rejected w.calls).length
        ≤ (rejected (runStages (specReconciler p t) sts kog w).2.calls).length
  | [], w => ⟨fun _ _ => rfl, Nat.le_refl _⟩
  | st :: rest, w => by
    obtain ⟨l1, l2, _, _, _, _⟩ := StageLaw_spec p kog st t w
    rw [runStages, specReconciler_run]
    rcases hst : specStep p kog st t w with ⟨_ | e, wA⟩
    · rw [hst] at l1 l2
      obtain ⟨f1, f2⟩ := runStages_frame p kog t rest wA
      refine ⟨?_, Nat.le_trans l2 f2⟩
      intro n hn
      simp only
      rw [f1 n (fun st2 h2 => hn st2 (List.mem_cons_of_mem _ h2))]
      exact l1 n (fun h => hn st (List.mem_cons_self _ _) h.symm)
    · rw [hst] at l1 l2
      exact ⟨fun n hn => l1 n (fun h => hn st (List.mem_cons_self _ _) h.symm), l2⟩

/-- Stages that all return nil had no write rejected. -/
theorem runStages_ok (p : Platform) (kog : iofogv1.Kog) (t : String) :
    ∀ (sts : List Stage) (w : World), (runStages (specReconciler p t) sts kog w).1 = none →
      (rejected (runStages (specReconciler p t) sts kog w).2.calls).length
        = (rejected w.calls).length
  | [], _ => fun _ => rfl
  | st :: rest, w => by
    obtain ⟨_, _, _, l4, _, _⟩ := StageLaw_spec p kog st t w
    rw [runStages, specReconciler_run]
    rcases hst : specStep p kog st t w with ⟨_ | e, wA⟩
    · rw [hst] at l4
      intro h
      simp only at h ⊢
      rw [runStages_ok p kog t rest wA h]
      exact (l4 rfl).2
    · intro h
      cases h

/-- After stages that had no write rejected, running the same stages from a
world with the live state they left issues no write and changes nothing. -/
theorem runStages_idempotent (p : Platform) (kog : iofogv1.Kog) (t1 t2 : String) :
    ∀ (sts : List Stage), sts.Nodup → ∀ (w : World),
      (rejected (runStages (specReconciler p t1) sts kog w).2.calls).length
        = (rejected w.calls).length →
      ∀ w2 : World, w2.live = (runStages (specReconciler p t1) sts kog w).2.live →
        (runStages (specReconciler p t2) sts kog w2).2.live = w2.live ∧
        (mutations (runStages (specReconciler p t2) sts kog w2).2.calls).length
          = (mutations w2.calls).length
  | [], _, _, _, _, _ => ⟨rfl, rfl⟩
  | st :: rest, hnd, w, hrej, w2, hw2 => by
    obtain ⟨hnotin, hnd2⟩ := List.nodup_cons.mp hnd
    obtain ⟨_, l2, _, l4, _, l6⟩ := StageLaw_spec p kog st t1 w
    obtain ⟨_, _, _, _, m5, _⟩ := StageLaw_spec p kog st t2 w2
    rw [runStages, specReconciler_run] at hrej hw2
    rw [runStages, specReconciler_run]
    rcases hst : specStep p kog st t1 w with ⟨_ | e, wA⟩
    · -- the stage returned nil in the first run
      rw [hst] at l2 l4 hrej hw2
      simp only at l2 l4 hrej hw2
      obtain ⟨f1, f2⟩ := runStages_frame p kog t1 rest wA
      obtain ⟨⟨l, hl, hobs⟩, _⟩ := l4 trivial
      have hrejA : (rejected (runStages (specReconciler p t1) rest kog wA).2.calls).length
          = (rejected wA.calls).length := by omega
      have hlive : w2.live (stageName st) = some l := by
        rw [hw2, f1 (stageName st)
          (fun st2 h2 h => hnotin (stageName_injective h ▸ h2))]
        exact hl
      obtain ⟨n1, n2⟩ := m5 l hlive hobs
      rcases hst2 : specStep p kog st t2 w2 with ⟨_ | e2, wB⟩
      · rw [hst2] at n1 n2
        simp only at n1 n2 ⊢
        obtain ⟨i1, i2⟩ := runStages_idempotent p kog t1 t2 rest hnd2 wA hrejA wB
          (by rw [n1, hw2])
        exact ⟨by rw [i1, n1], by rw [i2, n2]⟩
      · rw [hst2] at n1 n2
        exact ⟨n1, n2⟩
    · -- the stage failed in the first run, with no write rejected
      rw [hst] at l6 hrej hw2
      simp only at l6 hrej hw2
      obtain ⟨k1, k2⟩ := l6 (by simp) hrej
      obtain ⟨j1, j2, j3⟩ := k2 t2 w2 (by rw [hw2, k1])
      rcases hst2 : specStep p kog st t2 w2 with ⟨_ | e2, wB⟩
      · rw [hst2] at j1
        exact absurd rfl j1
      · rw [hst2] at j2 j3
        exact ⟨j2, j3⟩

/-- The method `Reconcile` runs the four stages in order on the decoded spec. -/
theorem Reconcile_runStages {σ : Type} (r : ReconcileKog σ) (request : reconcile.Request)
    (s s1 : σ) (kog : iofogv1.Kog) (password : List Byte)
    (hget : r.clientGet request s = (Except.ok kog, s1))
    (hdec : decode kog.Spec.ControlPlane.IofogUser.Password = (password, none)) :
    (Reconcile r request s).err
      = (runStages r reconcilerOrder (setPassword kog password) s1).1 ∧
    (Reconcile r request s).state
      = (runStages r reconcilerOrder (setPassword kog password) s1).2 := by
  rcases h0 : r.reconcileIofogController (setPassword kog password) s1 with ⟨e0, k1, s2⟩
  rcases h1 : r.reconcileIofogKubelet k1 s2 with ⟨e1, k2, s3⟩
  rcases h2 : r.reconcilePortManager k2 s3 with ⟨e2, k3, s4⟩
  rcases h3 : r.reconcileSkupper k3 s4 with ⟨e3, k4, s5⟩
  cases e0 <;> cases e1 <;> cases e2 <;> cases e3 <;>
    simp [Reconcile, hget, hdec, runStages, reconcilerOrder, ReconcileKog.run, h0, h1, h2, h3]

/-- A pass that does not reach the stages leaves the state as the fetch left it. -/
theorem Reconcile_stopped {σ : Type} (r : ReconcileKog σ) (request : reconcile.Request)
    (s : σ) :
    (∀ err s1, r.clientGet request s = (Except.error err, s1) →
      (Reconcile r request s).state = s1) ∧
    (∀ kog s1 err, r.clientGet request s = (Except.ok kog, s1) →
      (decode kog.Spec.ControlPlane.IofogUser.Password).2 = some err →
      (Reconcile r request s).state = s1) := by
  constructor
  · intro err s1 hget
    cases hnf : IsNotFound err <;> simp [Reconcile, hget, hnf]
  · intro kog s1 err hget hdec
    rcases hd : decode kog.Spec.ControlPlane.IofogUser.Password with ⟨password, e⟩
    rw [hd] at hdec
    subst hdec
    simp [Reconcile, hget, hd]

/-- Where the first run ends on a rejected create, the second run issues the
create again: a pass that failed has converged nothing yet. -/
theorem runPass_after_rejected_create :
    (runPass readOnlyPlatform "t1" {} emptyWorld).err
      = some (GoError.StatusError "Forbidden" "create is forbidden") ∧
    (mutations (runPass readOnlyPlatform "t2" {}
      (runPass readOnlyPlatform "t1" {} emptyWorld).state).state.calls).length = 1 := by
  decide

/-- Two runs of the pass in succession on the same desired spec and platform:
when the platform rejected no mutating call of the first run, the second run
issues no mutating call and leaves the live state as it is; and a first run that
returns a nil error had no mutating call rejected. -/
theorem runPass_second_run (p : Platform) (t1 t2 : String) (request : reconcile.Request)
    (w : World) :
    (rejected (runPass p t1 request w).state.calls = [] →
      mutations (runPass p t2 request (runPass p t1 request w).state).state.calls = [] ∧
      (runPass p t2 request (runPass p t1 request w).state).state.live
        = (runPass p t1 request w).state.live) ∧
    ((runPass p t1 request w).err = none → rejected (runPass p t1 request w).state.calls = []) := by
  have hclient : ∀ (t : String) (v : World),
      (specReconciler p t).clientGet request v = (p.fetch request, v) := fun _ _ => rfl
  rcases hf : p.fetch request with err | kog
  · -- the fetch fails: neither run reaches a stage
    have h1 : (runPass p t1 request w).state = { w with calls := [] } :=
      (Reconcile_stopped (specReconciler p t1) request _).1 err _ (by rw [hclient, hf])
    have h2 : (runPass p t2 request (runPass p t1 request w).state).state
        = { (runPass p t1 request w).state with calls := [] } :=
      (Reconcile_stopped (specReconciler p t2) request _).1 err _ (by rw [hclient, hf])
    rw [h2, h1]
    exact ⟨fun _ => ⟨rfl, rfl⟩, fun _ => rfl⟩
  rcases hd : decode kog.Spec.ControlPlane.IofogUser.Password with ⟨password, _ | err⟩
  swap
  · -- the password does not decode: neither run reaches a stage
    have h1 : (runPass p t1 request w).state = { w with calls := [] } :=
      (Reconcile_stopped (specReconciler p t1) request _).2 kog _ err (by rw [hclient, hf])
        (by rw [hd])
    have h2 : (runPass p t2 request (runPass p t1 request w).state).state
        = { (runPass p t1 request w).state with calls := [] } :=
      (Reconcile_stopped (specReconciler p t2) request _).2 kog _ err (by rw [hclient, hf])
        (by rw [hd])
    rw [h2, h1]
    exact ⟨fun _ => ⟨rfl, rfl⟩, fun _ => rfl⟩
  -- both runs are the four stages on the decoded spec
  obtain ⟨e1, s1⟩ := Reconcile_runStages (specReconciler p t1) request { w with calls := [] }
    _ kog password (by rw [hclient, hf]) hd
  obtain ⟨_, s2⟩ := Reconcile_runStages (specReconciler p t2) request
    { (runPass p t1 request w).state with calls := [] } _ kog password (by rw [hclient, hf]) hd
  have hs1 : (runPass p t1 request w).state
      = (runStages (specReconciler p t1) reconcilerOrder (setPassword kog password)
          { w with calls := [] }).2 := s1
  have hs2 : (runPass p t2 request (runPass p t1 request w).state).state
      = (runStages (specReconciler p t2) reconcilerOrder (setPassword kog password)
          { (runPass p t1 request w).state with calls := [] }).2 := s2
  have he1 : (runPass p t1 request w).err
      = (runStages (specReconciler p t1) reconcilerOrder (setPassword kog password)
          { w with calls := [] }).1 := e1
  constructor
  · intro hrej
    obtain ⟨i1, i2⟩ := runStages_idempotent p (setPassword kog password) t1 t2 reconcilerOrder
      (by decide) { w with calls := [] } (by rw [← hs1, hrej]; rfl)
      { (runPass p t1 request w).state with calls := [] } (by rw [← hs1])
    rw [hs2]
    exact ⟨List.length_eq_zero.mp i2, i1⟩
  · intro hnil
    rw [he1] at hnil
    have := runStages_ok p (setPassword kog password) t1 reconcilerOrder { w with calls := [] } hnil
    rw [hs1]
    exact List.length_eq_zero.mp this

/-- C17. Two runs of the pass in succession on the same desired spec, the
second starting from the cluster the first left (nothing else touched it): when
the first run returned nil, so that the live state is converged, the second run
issues no mutating call, whatever token is minted for it, and leaves the live
state as it found it. -/
theorem runPass_idempotent (p : Platform) (t1 t2 : String) (request : reconcile.Request)
    (w : World) (hnil : (runPass p t1 request w).err = none) :
    mutations (runPass p t2 request (runPass p t1 request w).state).state.calls = [] ∧
    (runPass p t2 request (runPass p t1 request w).state).state.live
      = (runPass p t1 request w).state.live :=
  (runPass_second_run p t1 t2 request w).1 ((runPass_second_run p t1 t2 request w).2 hnil)

/-- Witness of C17: on a platform that rejects nothing the first run creates
the four components and returns nil, and the second run issues no mutating call. -/
theorem runPass_idempotent_witness :
    (runPass openPlatform "t1" {} emptyWorld).err = none ∧
    (mutations (runPass openPlatform "t1" {} emptyWorld).state.calls).length = 4 ∧
    mutations (runPass openPlatform "t2" {}
      (runPass openPlatform "t1" {} emptyWorld).state).state.calls = [] :=
  ⟨by decide, by decide,
    (runPass_idempotent openPlatform "t1" "t2" {} emptyWorld (by decide)).1⟩

end Kog
